import Mathlib

/-!
# Verification of the photo-watermark compositing core

Shallow embedding of the watermark engine of this repository
(`src/image_processor.py`, `src/template_manager.py`) and proofs of the
specification's claims about it.

Conventions of the embedding:

* Python integers are `Int`; Python `//` (floor division) is `Int.fdiv`;
  Python `int()` applied to a non-negative real quotient of integers is
  truncating division.
* Pixel band values (as stored by PIL) are `Nat`, well-formed when `≤ 255`.
* PIL primitives whose pixel-exact behaviour is irrelevant to the claims
  (glyph rasterisation, LANCZOS resampling, rotation resampling, EXIF
  transposition) are abstracted as fields of a `PILOracle`; everything the
  claims quantify over (dimension arithmetic, candidate lists, branch
  structure, colour/alpha arithmetic) is translated from the source.
* The filesystem and image decoder are abstracted as an `FS` record;
  a caught Python exception is the corresponding `Option`/`Bool` failure.
-/

namespace PhotoWatermark

/-- The ten members of `WatermarkPosition` (image_processor.py lines 12-23). -/
inductive WatermarkPosition where
  | top_left
  | top_center
  | top_right
  | center_left
  | center
  | center_right
  | bottom_left
  | bottom_center
  | bottom_right
  | custom
deriving DecidableEq, Repr

/-- The `.value` string of each `WatermarkPosition` member. -/
def WatermarkPosition.toValue : WatermarkPosition → String
  | .top_left => "top_left"
  | .top_center => "top_center"
  | .top_right => "top_right"
  | .center_left => "center_left"
  | .center => "center"
  | .center_right => "center_right"
  | .bottom_left => "bottom_left"
  | .bottom_center => "bottom_center"
  | .bottom_right => "bottom_right"
  | .custom => "custom"

/-- `WatermarkPosition(value)`: the enum lookup, `none` models `ValueError`. -/
def WatermarkPosition.ofValue (s : String) : Option WatermarkPosition :=
  if s = "top_left" then some .top_left
  else if s = "top_center" then some .top_center
  else if s = "top_right" then some .top_right
  else if s = "center_left" then some .center_left
  else if s = "center" then some .center
  else if s = "center_right" then some .center_right
  else if s = "bottom_left" then some .bottom_left
  else if s = "bottom_center" then some .bottom_center
  else if s = "bottom_right" then some .bottom_right
  else if s = "custom" then some .custom
  else none

/-- `WatermarkType` (image_processor.py lines 25-28). -/
inductive WatermarkType where
  | text
  | image
deriving DecidableEq, Repr

/-- The `.value` string of each `WatermarkType` member. -/
def WatermarkType.toValue : WatermarkType → String
  | .text => "text"
  | .image => "image"

/-- `WatermarkType(value)`: the enum lookup, `none` models `ValueError`. -/
def WatermarkType.ofValue (s : String) : Option WatermarkType :=
  if s = "text" then some .text
  else if s = "image" then some .image
  else none

/-- `WatermarkConfig` (image_processor.py lines 30-60).  `scale_factor` is a
Python float carried through unchanged by every claim we verify about it, so
it is embedded as a rational. -/
structure WatermarkConfig where
  watermark_type : WatermarkType
  position : WatermarkPosition
  opacity : Int
  rotation : Int
  custom_x : Int
  custom_y : Int
  text : String
  font_family : String
  font_size : Int
  font_bold : Bool
  font_italic : Bool
  text_color : Int × Int × Int
  stroke_width : Int
  stroke_color : Int × Int × Int
  shadow_offset : Int × Int
  shadow_color : Int × Int × Int
  watermark_image_path : String
  scale_factor : ℚ
  margin_x : Int
  margin_y : Int
deriving DecidableEq, Repr

/-- The field values assigned by `WatermarkConfig.__init__`. -/
def WatermarkConfig.init : WatermarkConfig where
  watermark_type := .text
  position := .bottom_right
  opacity := 50
  rotation := 0
  custom_x := 0
  custom_y := 0
  text := "Watermark"
  font_family := "Arial"
  font_size := 36
  font_bold := false
  font_italic := false
  text_color := (255, 255, 255)
  stroke_width := 2
  stroke_color := (0, 0, 0)
  shadow_offset := (2, 2)
  shadow_color := (0, 0, 0)
  watermark_image_path := ""
  scale_factor := 1
  margin_x := 20
  margin_y := 20

/-- `ImageProcessor.calculate_position` (image_processor.py lines 321-367).
Python `//` is floor division, hence `Int.fdiv`.  The final
`positions.get(config.position, (margin_x, margin_y))` default is kept for
the (unreachable after the custom check) fall-through. -/
def calculate_position (image_size : Int × Int) (watermark_size : Int × Int)
    (config : WatermarkConfig) : Int × Int :=
  let img_width := image_size.1
  let img_height := image_size.2
  let wm_width := watermark_size.1
  let wm_height := watermark_size.2
  if config.position = .custom then
    (config.custom_x, config.custom_y)
  else
    match config.position with
    | .top_left => (config.margin_x, config.margin_y)
    | .top_center => (Int.fdiv (img_width - wm_width) 2, config.margin_y)
    | .top_right => (img_width - wm_width - config.margin_x, config.margin_y)
    | .center_left => (config.margin_x, Int.fdiv (img_height - wm_height) 2)
    | .center => (Int.fdiv (img_width - wm_width) 2,
                  Int.fdiv (img_height - wm_height) 2)
    | .center_right => (img_width - wm_width - config.margin_x,
                        Int.fdiv (img_height - wm_height) 2)
    | .bottom_left => (config.margin_x, img_height - wm_height - config.margin_y)
    | .bottom_center => (Int.fdiv (img_width - wm_width) 2,
                         img_height - wm_height - config.margin_y)
    | .bottom_right => (img_width - wm_width - config.margin_x,
                        img_height - wm_height - config.margin_y)
    | .custom => (config.margin_x, config.margin_y)

/-! ## Template persistence (template_manager.py) -/

/-- The flat key/value mapping produced by `TemplateManager.config_to_dict`
(template_manager.py lines 25-54).  A JSON dictionary is modelled as one
optional slot per known key; `none` means the key is absent, and
`data.get(key, dflt)` is `Option.getD`. -/
structure ConfigDict where
  watermark_type : Option String
  position : Option String
  opacity : Option Int
  rotation : Option Int
  custom_x : Option Int
  custom_y : Option Int
  text : Option String
  font_family : Option String
  font_size : Option Int
  font_bold : Option Bool
  font_italic : Option Bool
  text_color : Option (Int × Int × Int)
  stroke_width : Option Int
  stroke_color : Option (Int × Int × Int)
  shadow_offset : Option (Int × Int)
  shadow_color : Option (Int × Int × Int)
  watermark_image_path : Option String
  scale_factor : Option ℚ
  margin_x : Option Int
  margin_y : Option Int
deriving DecidableEq, Repr

/-- The dictionary with every key missing. -/
def ConfigDict.empty : ConfigDict where
  watermark_type := none
  position := none
  opacity := none
  rotation := none
  custom_x := none
  custom_y := none
  text := none
  font_family := none
  font_size := none
  font_bold := none
  font_italic := none
  text_color := none
  stroke_width := none
  stroke_color := none
  shadow_offset := none
  shadow_color := none
  watermark_image_path := none
  scale_factor := none
  margin_x := none
  margin_y := none

/-- `TemplateManager.config_to_dict` (template_manager.py lines 25-54):
every key is written, enums are stored through `.value`. -/
def config_to_dict (config : WatermarkConfig) : ConfigDict where
  watermark_type := some config.watermark_type.toValue
  position := some config.position.toValue
  opacity := some config.opacity
  rotation := some config.rotation
  custom_x := some config.custom_x
  custom_y := some config.custom_y
  text := some config.text
  font_family := some config.font_family
  font_size := some config.font_size
  font_bold := some config.font_bold
  font_italic := some config.font_italic
  text_color := some config.text_color
  stroke_width := some config.stroke_width
  stroke_color := some config.stroke_color
  shadow_offset := some config.shadow_offset
  shadow_color := some config.shadow_color
  watermark_image_path := some config.watermark_image_path
  scale_factor := some config.scale_factor
  margin_x := some config.margin_x
  margin_y := some config.margin_y

/-- `TemplateManager.dict_to_config` (template_manager.py lines 56-88):
each field is read with `data.get(key, default)`; the two enum constructors
can raise `ValueError` on an invalid stored string, modelled by `Option`.
`tuple(...)` on the colour/offset lists is the identity in this embedding. -/
def dict_to_config (data : ConfigDict) : Option WatermarkConfig := do
  let wtype ← WatermarkType.ofValue (data.watermark_type.getD "text")
  let pos ← WatermarkPosition.ofValue (data.position.getD "bottom_right")
  pure {
    watermark_type := wtype
    position := pos
    opacity := data.opacity.getD 50
    rotation := data.rotation.getD 0
    custom_x := data.custom_x.getD 0
    custom_y := data.custom_y.getD 0
    text := data.text.getD "Watermark"
    font_family := data.font_family.getD "Arial"
    font_size := data.font_size.getD 36
    font_bold := data.font_bold.getD false
    font_italic := data.font_italic.getD false
    text_color := data.text_color.getD (255, 255, 255)
    stroke_width := data.stroke_width.getD 2
    stroke_color := data.stroke_color.getD (0, 0, 0)
    shadow_offset := data.shadow_offset.getD (2, 2)
    shadow_color := data.shadow_color.getD (0, 0, 0)
    watermark_image_path := data.watermark_image_path.getD ""
    scale_factor := data.scale_factor.getD 1
    margin_x := data.margin_x.getD 20
    margin_y := data.margin_y.getD 20 }

/-! ## Images, filesystem and PIL primitives -/

/-- One pixel as PIL stores it: unsigned 8-bit bands (red, green, blue,
alpha).  Well-formed values are `≤ 255`. -/
structure Pix where
  r : Nat
  g : Nat
  b : Nat
  a : Nat
deriving DecidableEq, Repr

/-- The PIL image modes the engine manipulates. -/
inductive PMode where
  | RGB
  | RGBA
  | gray
  | palette
deriving DecidableEq, Repr

/-- A decoded PIL image: dimensions (Python ints) and a pixel map.  The
pixel map is total on `Int × Int`; only coordinates inside the rectangle
are meaningful. -/
structure PImage where
  width : Int
  height : Int
  mode : PMode
  px : Int → Int → Pix

/-- All bands of every pixel are 8-bit. -/
def PImage.wf (img : PImage) : Prop :=
  ∀ x y, (img.px x y).r ≤ 255 ∧ (img.px x y).g ≤ 255 ∧
         (img.px x y).b ≤ 255 ∧ (img.px x y).a ≤ 255

/-- The ambient filesystem / decoder, abstracting the I/O the engine does.
A Python exception raised by `Image.open`, `ImageFont.truetype` or
`Image.save` (always caught by the engine) is the corresponding `none` /
`false` here. -/
structure FS where
  pathExists : String → Bool
  fontOk : String → Bool
  imageAt : String → Option PImage
  saveOk : String → Bool

/-- The filesystem with no readable files at all. -/
def FS.nofiles : FS where
  pathExists := fun _ => false
  fontOk := fun _ => false
  imageAt := fun _ => none
  saveOk := fun _ => false

/-- PIL's `MULDIV255` macro (`(tmp = a*b + 128, ((tmp >> 8) + tmp) >> 8)`),
the approximate division by 255 used by `Image.paste` blending. -/
def muldiv255 (x y : Nat) : Nat :=
  let t := x * y + 128
  (t / 256 + t) / 256

/-- PIL's `BLEND` macro: mix background band `bg` and source band `v` under
mask value `m` (`Paste.c`). -/
def blend255 (bg v m : Nat) : Nat :=
  muldiv255 bg (255 - m) + muldiv255 v m

/-- Python `str.upper()` for the ASCII format names the engine compares
(`String.toUpper` itself is defined by well-founded recursion and does not
reduce in proofs). -/
def strUpper (s : String) : String :=
  String.mk (s.data.map Char.toUpper)

/-- Python `str.lower()` for paths and font-family names (ASCII letters are
lowered, CJK characters are untouched, as in Python for these inputs). -/
def strLower (s : String) : String :=
  String.mk (s.data.map Char.toLower)

/-! ## Font resolution (image_processor.py lines 68-319) -/

/-- The result of font resolution: a concrete font file opened at a size, or
PIL's built-in default font (`ImageFont.load_default()`). -/
inductive FontHandle where
  | truetype (path : String) (size : Int)
  | loadDefault
deriving DecidableEq, Repr

/-- `ImageProcessor.default_font_paths` (lines 69-74). -/
def default_font_paths : List String :=
  ["C:/Windows/Fonts/arial.ttf",
   "C:/Windows/Fonts/calibri.ttf",
   "C:/Windows/Fonts/times.ttf",
   "arial.ttf"]

/-- `ImageProcessor.chinese_font_paths` (lines 77-85). -/
def chinese_font_paths : List String :=
  ["C:/Windows/Fonts/simsun.ttc",
   "C:/Windows/Fonts/simhei.ttf",
   "C:/Windows/Fonts/msyh.ttc",
   "C:/Windows/Fonts/simkai.ttf",
   "C:/Windows/Fonts/simfang.ttf",
   "C:/Windows/Fonts/STXIHEI.TTF",
   "C:/Windows/Fonts/STZHONGS.TTF"]

/-- The ordered `font_paths_to_try` list built by `ImageProcessor.get_font`
(lines 116-223): styled candidates for the requested family first, then the
family's regular files, then the default Western paths, then the Chinese
fallback paths. -/
def fontCandidates (font_family : String) (bold italic : Bool) : List String :=
  let fam := strLower font_family
  let styled : List String :=
    if fam = "arial" then
      (if bold && italic then
        ["C:/Windows/Fonts/arialbi.ttf", "C:/Windows/Fonts/Arial Bold Italic.ttf"]
       else if bold then
        ["C:/Windows/Fonts/arialbd.ttf", "C:/Windows/Fonts/Arial Bold.ttf"]
       else if italic then
        ["C:/Windows/Fonts/ariali.ttf", "C:/Windows/Fonts/Arial Italic.ttf"]
       else []) ++
      ["C:/Windows/Fonts/arial.ttf", "C:/Windows/Fonts/Arial.ttf"]
    else if fam = "times new roman" then
      (if bold && italic then
        ["C:/Windows/Fonts/timesbi.ttf", "C:/Windows/Fonts/timesbi.ttc",
         "C:/Windows/Fonts/Times New Roman Bold Italic.ttf"]
       else if bold then
        ["C:/Windows/Fonts/timesbd.ttf", "C:/Windows/Fonts/timesb.ttc",
         "C:/Windows/Fonts/Times New Roman Bold.ttf"]
       else if italic then
        ["C:/Windows/Fonts/timesi.ttf", "C:/Windows/Fonts/timesi.ttc",
         "C:/Windows/Fonts/Times New Roman Italic.ttf"]
       else []) ++
      ["C:/Windows/Fonts/times.ttf", "C:/Windows/Fonts/times.ttc",
       "C:/Windows/Fonts/Times New Roman.ttf"]
    else if fam = "calibri" then
      (if bold && italic then
        ["C:/Windows/Fonts/calibribi.ttf", "C:/Windows/Fonts/calibribi.ttf",
         "C:/Windows/Fonts/Calibri Bold Italic.ttf"]
       else if bold then
        ["C:/Windows/Fonts/calibrib.ttf", "C:/Windows/Fonts/calibri-bold.ttf",
         "C:/Windows/Fonts/Calibri Bold.ttf"]
       else if italic then
        ["C:/Windows/Fonts/calibrii.ttf", "C:/Windows/Fonts/calibri-italic.ttf",
         "C:/Windows/Fonts/Calibri Italic.ttf"]
       else []) ++
      ["C:/Windows/Fonts/calibri.ttf", "C:/Windows/Fonts/Calibri.ttf"]
    else if fam = "simsun" ∨ fam = "宋体" then
      ["C:/Windows/Fonts/simsun.ttc",
       if bold then "C:/Windows/Fonts/simsunb.ttf" else "C:/Windows/Fonts/simsun.ttc"]
    else if fam = "simhei" ∨ fam = "黑体" then
      ["C:/Windows/Fonts/simhei.ttf"]
    else if fam = "microsoftyahei" ∨ fam = "微软雅黑" ∨ fam = "yahei" then
      (if bold then
        ["C:/Windows/Fonts/msyhbd.ttc", "C:/Windows/Fonts/msyhbd.ttf",
         "C:/Windows/Fonts/MSYHBD.TTC"]
       else []) ++
      ["C:/Windows/Fonts/msyh.ttc", "C:/Windows/Fonts/msyh.ttf",
       "C:/Windows/Fonts/MSYH.TTC"]
    else []
  styled ++ default_font_paths ++ chinese_font_paths

/-- The ordered `chinese_fonts` list built by
`ImageProcessor.get_chinese_font` (lines 245-309). -/
def chineseCandidates (font_family : String) (bold italic : Bool) : List String :=
  let fam := strLower font_family
  let main : List String :=
    if fam = "microsoftyahei" ∨ fam = "微软雅黑" ∨ fam = "yahei" then
      if bold && italic then
        ["C:/Windows/Fonts/msyhbd.ttc", "C:/Windows/Fonts/msyhbd.ttf",
         "C:/Windows/Fonts/MSYHBD.TTC"]
      else if bold then
        ["C:/Windows/Fonts/msyhbd.ttc", "C:/Windows/Fonts/msyhbd.ttf",
         "C:/Windows/Fonts/MSYHBD.TTC"]
      else if italic then
        ["C:/Windows/Fonts/msyh.ttc", "C:/Windows/Fonts/msyh.ttf",
         "C:/Windows/Fonts/MSYH.TTC"]
      else
        ["C:/Windows/Fonts/msyh.ttc", "C:/Windows/Fonts/msyh.ttf",
         "C:/Windows/Fonts/MSYH.TTC"]
    else if fam = "simsun" ∨ fam = "宋体" then
      (if bold then ["C:/Windows/Fonts/simsunb.ttf"] else []) ++
      ["C:/Windows/Fonts/simsun.ttc"]
    else if fam = "simhei" ∨ fam = "黑体" then
      ["C:/Windows/Fonts/simhei.ttf"]
    else
      (if bold then ["C:/Windows/Fonts/msyhbd.ttc", "C:/Windows/Fonts/msyhbd.ttf"]
       else []) ++
      ["C:/Windows/Fonts/msyh.ttc", "C:/Windows/Fonts/msyh.ttf"]
  main ++
  ["C:/Windows/Fonts/simkai.ttf", "C:/Windows/Fonts/simfang.ttf",
   "C:/Windows/Fonts/STXIHEI.TTF", "C:/Windows/Fonts/STZHONGS.TTF"]

/-- The candidate loop shared by both resolvers: first path that exists and
loads (a raising `ImageFont.truetype` is caught and skipped) wins; otherwise
`ImageFont.load_default()`. -/
def pickFont (fs : FS) (candidates : List String) (font_size : Int) : FontHandle :=
  match candidates.find? (fun p => fs.pathExists p && fs.fontOk p) with
  | some p => .truetype p font_size
  | none => .loadDefault

/-- `ImageProcessor.get_font` (lines 116-236). -/
def get_font (fs : FS) (font_family : String) (font_size : Int)
    (bold italic : Bool) : FontHandle :=
  pickFont fs (fontCandidates font_family bold italic) font_size

/-- `ImageProcessor.get_chinese_font` (lines 245-319). -/
def get_chinese_font (fs : FS) (font_family : String) (font_size : Int)
    (bold italic : Bool) : FontHandle :=
  pickFont fs (chineseCandidates font_family bold italic) font_size

/-- A handle is usable when it is the built-in default, or a path that exists
and loads in the ambient filesystem. -/
def fontUsable (fs : FS) : FontHandle → Prop
  | .loadDefault => True
  | .truetype p _ => fs.pathExists p = true ∧ fs.fontOk p = true

/-! ## Abstracted PIL primitives -/

/-- The arguments the text branch hands to `ImageDraw.text`: the measured
layer is drawn from a transparent canvas, optionally a shadow pass, then the
main pass with stroke (image_processor.py lines 408-427). -/
structure TextSpec where
  text : String
  font : FontHandle
  stroke_width : Int
  padding : Int
  draw_shadow : Bool
  shadow_offset : Int × Int
  fill : (Int × Int × Int) × Int
  stroke_fill : (Int × Int × Int) × Int
  shadow_fill : (Int × Int × Int) × Int

/-- PIL primitives whose pixel-exact output the claims never constrain:
glyph measurement/rasterisation, EXIF transposition, mode conversion of a
single pixel, the bounding box of `rotate(expand=True)` and its resampled
content, LANCZOS resampling, and the sheared content of the affine italic
transform.  Dimension bookkeeping around them stays in the embedding. -/
structure PILOracle where
  exifTranspose : PImage → PImage
  convertPx : PMode → Pix → Pix
  textbbox : String → FontHandle → Int → Int × Int × Int × Int
  drawText : TextSpec → Int → Int → Pix
  rotateDims : Int → Int → Int → Int × Int
  rotatePx : PImage → Int → Int → Int → Pix
  resizePx : PImage → Int → Int → Int → Int → Pix
  skewPx : PImage → Int → Int → Pix

/-- `image.convert('RGBA')`: same dimensions, per-pixel conversion, and the
result's mode is `RGBA` by PIL's contract. -/
def convertRGBA (oracle : PILOracle) (img : PImage) : PImage where
  width := img.width
  height := img.height
  mode := .RGBA
  px := fun x y => oracle.convertPx img.mode (img.px x y)

/-- `image.rotate(angle, expand=True)`: expanded bounding-box dimensions and
resampled content from the oracle, mode preserved. -/
def rotateExpand (oracle : PILOracle) (img : PImage) (angle : Int) : PImage where
  width := (oracle.rotateDims img.width img.height angle).1
  height := (oracle.rotateDims img.width img.height angle).2
  mode := img.mode
  px := oracle.rotatePx img angle

/-! ## Loading (image_processor.py lines 87-114) -/

/-- `ImageProcessor.SUPPORTED_INPUT_FORMATS` (line 65). -/
def SUPPORTED_INPUT_FORMATS : List String :=
  [".jpg", ".jpeg", ".png", ".bmp", ".tiff", ".tif"]

/-- Index of the last occurrence of `c`, or `-1` (Python `str.rfind`). -/
def lastIndexOfAux (c : Char) : List Char → Int → Int → Int
  | [], _, best => best
  | x :: xs, i, best => lastIndexOfAux c xs (i + 1) (if x = c then i else best)

def lastIndexOf (l : List Char) (c : Char) : Int :=
  lastIndexOfAux c l 0 (-1)

/-- The extension component of `os.path.splitext` (posix separators): the
suffix from the last dot, provided that dot lies after the last `/` and some
character of the basename strictly before it is not a dot (so a leading-dot
filename has no extension). -/
def splitextExt (p : String) : String :=
  let l := p.data
  let sepIndex := lastIndexOf l '/'
  let dotIndex := lastIndexOf l '.'
  if dotIndex > sepIndex ∧
      (List.range l.length).any (fun i =>
        decide (sepIndex < (i : Int) ∧ (i : Int) < dotIndex ∧ l.getD i '.' ≠ '.'))
  then String.mk (l.drop dotIndex.toNat)
  else ""

/-- The stem component of `os.path.splitext` applied to a basename-free
split: everything before the extension. -/
def splitextRoot (p : String) : String :=
  String.mk (p.data.take (p.data.length - (splitextExt p).data.length))

/-- `ImageProcessor.is_supported_format` (lines 87-90). -/
def is_supported_format (file_path : String) : Bool :=
  SUPPORTED_INPUT_FORMATS.contains (splitextExt (strLower file_path))

/-- `ImageProcessor.load_image` (lines 92-114): unsupported extension or a
raising `Image.open` yields `None`; otherwise EXIF orientation is applied
and the image is converted to `RGBA` unless it already is. -/
def load_image (fs : FS) (oracle : PILOracle) (file_path : String) : Option PImage :=
  if ¬ is_supported_format file_path then none
  else
    match fs.imageAt file_path with
    | none => none
    | some image =>
      let image := oracle.exifTranspose image
      some (if image.mode = .RGBA then image else convertRGBA oracle image)

/-! ## Text watermark (image_processor.py lines 238-243 and 369-448) -/

/-- `ImageProcessor.has_chinese_characters` (lines 238-243). -/
def has_chinese_characters (text : String) : Bool :=
  text.data.any (fun c => decide ('一' ≤ c ∧ c ≤ '鿿'))

/-- `int(255 * opacity / 100)` (lines 419, 423, 424): float true division
then `int` truncation toward zero.  Exact as integer truncating division:
the correctly rounded float quotient of `255*opacity` by `100` is a
multiple of 1/100 up to an error far below 1/100, so truncation agrees
with the exact rational's truncation for all realistic opacities. -/
def alphaFromOpacity (opacity : Int) : Int :=
  Int.tdiv (255 * opacity) 100

/-- `text_color + (int(255 * config.opacity / 100),)` (line 423). -/
def textFillColor (config : WatermarkConfig) : (Int × Int × Int) × Int :=
  (config.text_color, alphaFromOpacity config.opacity)

/-- `stroke_color + (int(255 * config.opacity / 100),)` (line 424). -/
def strokeFillColor (config : WatermarkConfig) : (Int × Int × Int) × Int :=
  (config.stroke_color, alphaFromOpacity config.opacity)

/-- `shadow_color + (int(255 * config.opacity / 100),)` (line 419). -/
def shadowFillColor (config : WatermarkConfig) : (Int × Int × Int) × Int :=
  (config.shadow_color, alphaFromOpacity config.opacity)

/-- The simulated-italic shear (lines 434-446): `skew_factor = 0.2`, output
size `(int(width + 0.2*height), height)`, content from the affine
transform.  For the nonnegative heights PIL produces,
`int(width + 0.2*height) = width + height.fdiv 5` exactly (float error in
`0.2*height` cannot cross an integer boundary downward since the float
constant `0.2` exceeds 1/5). -/
def skewItalic (oracle : PILOracle) (img : PImage) : PImage where
  width := img.width + Int.fdiv img.height 5
  height := img.height
  mode := img.mode
  px := oracle.skewPx img

/-- The font chosen by `create_text_watermark` (lines 372-381): the
Chinese-capable resolver for text containing CJK codepoints, the Western
resolver otherwise. -/
def textLayerFont (fs : FS) (text : String) (config : WatermarkConfig) :
    FontHandle :=
  if has_chinese_characters text then
    get_chinese_font fs config.font_family config.font_size
      config.font_bold config.font_italic
  else
    get_font fs config.font_family config.font_size
      config.font_bold config.font_italic

/-- The padding around the measured text (lines 393-403):
`base_padding = max(stroke_width, |shadow dx|, |shadow dy|) + 10` plus
`extra_padding = min(font_size // 5, 20)` for font sizes above 50, else 0. -/
def textLayerPadding (config : WatermarkConfig) : Int :=
  max config.stroke_width
      (max |config.shadow_offset.1| |config.shadow_offset.2|) + 10 +
    (if 50 < config.font_size then min (Int.fdiv config.font_size 5) 20 else 0)

/-- `bbox[2] - bbox[0]` of `textbbox((0,0), text, font, stroke_width)`
(lines 389-390). -/
def textbboxSpanW (fs : FS) (oracle : PILOracle) (text : String)
    (config : WatermarkConfig) : Int :=
  (oracle.textbbox text (textLayerFont fs text config) config.stroke_width).2.2.1
    - (oracle.textbbox text (textLayerFont fs text config) config.stroke_width).1

/-- `bbox[3] - bbox[1]` of the same measurement (line 391). -/
def textbboxSpanH (fs : FS) (oracle : PILOracle) (text : String)
    (config : WatermarkConfig) : Int :=
  (oracle.textbbox text (textLayerFont fs text config) config.stroke_width).2.2.2
    - (oracle.textbbox text (textLayerFont fs text config) config.stroke_width).2.1

/-- The freshly drawn transparent layer (lines 383-427): measured bounding
box plus padding on every side; shadow pass when `shadow_offset != (0,0)`,
then the main text with stroke, all alpha-scaled from `opacity`. -/
def textLayerBase (fs : FS) (oracle : PILOracle) (text : String)
    (config : WatermarkConfig) : PImage where
  width := textbboxSpanW fs oracle text config + textLayerPadding config * 2
  height := textbboxSpanH fs oracle text config + textLayerPadding config * 2
  mode := .RGBA
  px := oracle.drawText
    { text := text
      font := textLayerFont fs text config
      stroke_width := config.stroke_width
      padding := textLayerPadding config
      draw_shadow := decide (config.shadow_offset ≠ (0, 0))
      shadow_offset := config.shadow_offset
      fill := textFillColor config
      stroke_fill := strokeFillColor config
      shadow_fill := shadowFillColor config }

/-- The layer after the optional rotation (lines 429-431). -/
def textLayerRotated (fs : FS) (oracle : PILOracle) (text : String)
    (config : WatermarkConfig) : PImage :=
  if config.rotation ≠ 0 then
    rotateExpand oracle (textLayerBase fs oracle text config) config.rotation
  else textLayerBase fs oracle text config

/-- `ImageProcessor.create_text_watermark` (lines 369-448): draw, rotate,
then shear for CJK text with italic requested (lines 433-446). -/
def create_text_watermark (fs : FS) (oracle : PILOracle) (text : String)
    (config : WatermarkConfig) : PImage :=
  if has_chinese_characters text && config.font_italic then
    skewItalic oracle (textLayerRotated fs oracle text config)
  else textLayerRotated fs oracle text config

/-! ## Image watermark (image_processor.py lines 450-482) -/

/-- Python `int()` of a rational value: truncation toward zero. -/
def ratTrunc (q : ℚ) : Int :=
  if 0 ≤ q then ⌊q⌋ else ⌈q⌉

/-- `image.resize((w, h), LANCZOS)`: new dimensions, resampled content from
the oracle. -/
def resized (oracle : PILOracle) (img : PImage) (w h : Int) : PImage where
  width := w
  height := h
  mode := img.mode
  px := oracle.resizePx img w h

/-- Fueled binary logarithm: `natLog2Aux fuel n = ⌊log2 n⌋` whenever
`n ≤ fuel` (structural recursion so it reduces in the kernel, unlike
`Nat.log2`). -/
def natLog2Aux : Nat → Nat → Nat
  | 0, _ => 0
  | fuel + 1, n => if n ≤ 1 then 0 else natLog2Aux fuel (n / 2) + 1

def natLog2 (n : Nat) : Nat :=
  natLog2Aux n n

/-- Round the fraction `N / D` (`D ≥ 1`) to the nearest integer, ties to
even — the IEEE-754 default rounding used by every float operation below. -/
def roundNearestEvenND (N D : Nat) : Nat :=
  if 2 * (N % D) < D then N / D
  else if D < 2 * (N % D) then N / D + 1
  else if N / D % 2 = 0 then N / D else N / D + 1

/-- `⌊log2 (N / D)⌋` for `N, D ≥ 1`, by comparing against the power-of-two
guess derived from the integer logarithms of `N` and `D`. -/
def qlog2ND (N D : Nat) : Int :=
  let e0 : Int := (natLog2 N : Int) - (natLog2 D : Int)
  if 0 ≤ e0 then (if D * 2 ^ e0.toNat ≤ N then e0 else e0 - 1)
  else (if D ≤ N * 2 ^ (-e0).toNat then e0 else e0 - 1)

/-- Round the nonnegative fraction `N / D` to a binary floating-point value
with `p` significand bits (round to nearest, ties to even; the exponent
range is unbounded, which agrees with IEEE float32/float64 on the
magnitudes reached here — no overflow or subnormals).  The result is the
dyadic pair `(mantissa, exponent)` with value `mantissa * 2 ^ exponent`. -/
def flND (p : Nat) (N D : Nat) : Nat × Int :=
  if N = 0 then (0, 0)
  else
    let e := qlog2ND N D
    let s : Int := (p : Int) - 1 - e
    let m := if 0 ≤ s then roundNearestEvenND (N * 2 ^ s.toNat) D
             else roundNearestEvenND N (D * 2 ^ (-s).toNat)
    (m, e + 1 - (p : Int))

/-- Round the dyadic value `m * 2 ^ k` to `p` significand bits. -/
def flDyadic (p : Nat) (m : Nat) (k : Int) : Nat × Int :=
  if 0 ≤ k then flND p (m * 2 ^ k.toNat) 1
  else flND p m (2 ^ (-k).toNat)

/-- The value `ImageEnhance.Brightness(alpha).enhance(opacity / 100.0)`
writes for a band value `a` when `0 ≤ opacity`, bit-exact to the program:
Python evaluates `opacity / 100.0` as an IEEE double (53-bit round), the
value is cast to C `float` (24-bit round) on the way into `ImagingBlend`,
Blend.c multiplies it by the band in float32 (24-bit round) and the
`(UINT8)` cast truncates toward zero.  `opacity = 0` takes Blend.c's
`alpha == 0.0` copy-black path, which yields the same 0. -/
def scaledAlphaCore (a op : Nat) : Nat :=
  let factor64 := flND 53 op 100
  let factor32 := flDyadic 24 factor64.1 factor64.2
  let prod := flDyadic 24 (factor32.1 * a) factor32.2
  if 0 ≤ prod.2 then prod.1 * 2 ^ prod.2.toNat else prod.1 / 2 ^ (-prod.2).toNat

/-- One band of `ImageEnhance.Brightness(alpha).enhance(opacity / 100.0)`
(lines 470-471): the float32 blend against black for `0 ≤ opacity`
(`opacity < 100` is the only caller), and Blend.c's clipped extrapolation,
which pins a negative factor times a nonnegative band to 0. -/
def scaledAlpha (a : Nat) (opacity : Int) : Nat :=
  if 0 ≤ opacity then scaledAlphaCore a opacity.toNat else 0

/-- The rational value of a dyadic pair (specification only; the
computations above never evaluate it). -/
def dyVal (d : Nat × Int) : ℚ :=
  (d.1 : ℚ) * 2 ^ d.2

/-- `watermark.putalpha(enhanced_alpha)` (lines 470-472): every band kept,
the alpha band replaced by its brightness-scaled value. -/
def applyOpacityAlpha (img : PImage) (opacity : Int) : PImage where
  width := img.width
  height := img.height
  mode := img.mode
  px := fun x y => { img.px x y with a := scaledAlpha (img.px x y).a opacity }

/-- The transformation `create_image_watermark` applies to the decoded
watermark image (lines 458-478): ensure `RGBA`, scale when
`scale_factor != 1.0`, multiply the alpha channel when `opacity < 100`,
rotate when `rotation != 0`. -/
def imageWatermarkPipeline (oracle : PILOracle) (config : WatermarkConfig)
    (watermark : PImage) : PImage :=
  let watermark :=
    if watermark.mode = .RGBA then watermark else convertRGBA oracle watermark
  let watermark :=
    if config.scale_factor ≠ 1 then
      resized oracle watermark
        (ratTrunc ((watermark.width : ℚ) * config.scale_factor))
        (ratTrunc ((watermark.height : ℚ) * config.scale_factor))
    else watermark
  let watermark :=
    if config.opacity < 100 then applyOpacityAlpha watermark config.opacity
    else watermark
  if config.rotation ≠ 0 then rotateExpand oracle watermark config.rotation
  else watermark

/-- `ImageProcessor.create_image_watermark` (lines 450-482): `None` when the
path is empty, missing, or `Image.open` raises (the exception is caught);
otherwise the decoded image is transformed by `imageWatermarkPipeline`. -/
def create_image_watermark (fs : FS) (oracle : PILOracle)
    (config : WatermarkConfig) : Option PImage :=
  if config.watermark_image_path = "" then none
  else if ¬ fs.pathExists config.watermark_image_path then none
  else
    (fs.imageAt config.watermark_image_path).map
      (imageWatermarkPipeline oracle config)

/-! ## Compositing (image_processor.py lines 484-504) -/

/-- The watermark layer `apply_watermark` builds before pasting (lines
487-490): the text branch always produces a layer, the image branch may
produce none. -/
def layerOf (fs : FS) (oracle : PILOracle) (config : WatermarkConfig) :
    Option PImage :=
  match config.watermark_type with
  | .text => some (create_text_watermark fs oracle config.text config)
  | .image => create_image_watermark fs oracle config

/-- One pixel of `Image.paste(im, mask)` blending (PIL `Paste.c`): every
band mixed under the mask value, here the pasted layer's own alpha. -/
def blendPix (bg fg : Pix) : Pix where
  r := blend255 bg.r fg.r fg.a
  g := blend255 bg.g fg.g fg.a
  b := blend255 bg.b fg.b fg.a
  a := blend255 bg.a fg.a fg.a

/-- `result.paste(watermark, position, watermark)` applied to the copy of
the source (lines 499-502): inside the pasted rectangle the bands are
mask-blended, outside they are the base image's, and PIL crops the layer at
the canvas edges (coordinates outside the base rectangle are never read
back). -/
def pasteRegion (base wm : PImage) (pos : Int × Int) : PImage where
  width := base.width
  height := base.height
  mode := base.mode
  px := fun x y =>
    if pos.1 ≤ x ∧ x < pos.1 + wm.width ∧ pos.2 ≤ y ∧ y < pos.2 + wm.height then
      blendPix (base.px x y) (wm.px (x - pos.1) (y - pos.2))
    else base.px x y

/-- `ImageProcessor.apply_watermark` (lines 484-504).  When no layer could
be produced the function returns the input image object itself (line 493,
`return image` — not a copy); otherwise it pastes the layer onto a copy of
the input, leaving the input untouched. -/
def apply_watermark (fs : FS) (oracle : PILOracle) (image : PImage)
    (config : WatermarkConfig) : PImage :=
  match layerOf fs oracle config with
  | none => image
  | some watermark =>
    let position :=
      calculate_position (image.width, image.height)
        (watermark.width, watermark.height) config
    pasteRegion image watermark position

/-! ## Saving (image_processor.py lines 506-527) -/

/-- White-background flatten before JPEG encoding (lines 515-519):
`background = Image.new('RGB', size, (255,255,255));
background.paste(image, mask=image.split()[3])`.  Straight alpha-over-white
with PIL's paste blending; the result has no alpha band. -/
def flattenWhite (img : PImage) : PImage where
  width := img.width
  height := img.height
  mode := .RGB
  px := fun x y =>
    let p := img.px x y
    ⟨blend255 255 p.r p.a, blend255 255 p.g p.a, blend255 255 p.b p.a, 255⟩

/-- The image actually handed to the encoder by `ImageProcessor.save_image`
(lines 506-527): JPEG output flattens an `RGBA` image onto white first;
every other requested format is written as PNG, unchanged. -/
def save_image_encoded (image : PImage) (output_format : String) : PImage :=
  if strUpper output_format = "JPEG" then
    if image.mode = .RGBA then flattenWhite image else image
  else image

/-- The success result of `save_image`: the disk write may fail (exception
caught, `False` returned), abstracted by `FS.saveOk` on the output path.
The encoded pixels are `save_image_encoded image output_format`. -/
def save_image (fs : FS) (_image : PImage) (output_path : String) : Bool :=
  fs.saveOk output_path

/-! ## Resizing and batch (image_processor.py lines 529-591) -/

/-- The `resize_options` keyword arguments of `resize_image`. -/
structure ResizeOptions where
  width : Option Int
  height : Option Int
  scale_percent : Option ℚ
deriving DecidableEq, Repr

/-- Python truthiness of an optional int (`None` and `0` are falsy). -/
def truthyInt : Option Int → Bool
  | none => false
  | some n => decide (n ≠ 0)

/-- Python truthiness of an optional float (`None` and `0.0` are falsy). -/
def truthyRat : Option ℚ → Bool
  | none => false
  | some q => decide (q ≠ 0)

/-- `ImageProcessor.resize_image` (lines 529-548).  The aspect-ratio float
arithmetic is embedded with exact rationals and `int()` truncation. -/
def resize_image (oracle : PILOracle) (image : PImage)
    (opts : ResizeOptions) : PImage :=
  if truthyRat opts.scale_percent then
    let sp := opts.scale_percent.getD 0
    resized oracle image
      (ratTrunc ((image.width : ℚ) * sp / 100))
      (ratTrunc ((image.height : ℚ) * sp / 100))
  else if truthyInt opts.width && truthyInt opts.height then
    resized oracle image (opts.width.getD 0) (opts.height.getD 0)
  else if truthyInt opts.width then
    let w := opts.width.getD 0
    resized oracle image w
      (ratTrunc ((w : ℚ) * ((image.height : ℚ) / (image.width : ℚ))))
  else if truthyInt opts.height then
    let h := opts.height.getD 0
    resized oracle image
      (ratTrunc ((h : ℚ) * ((image.width : ℚ) / (image.height : ℚ)))) h
  else image

/-- `os.path.basename`: the component after the last `/`. -/
def basename (p : String) : String :=
  String.mk (p.data.drop (lastIndexOf p.data '/' + 1).toNat)

/-- `os.path.splitext(os.path.basename(path))[0]` (line 572). -/
def stem (p : String) : String :=
  splitextRoot (basename p)

/-- `os.path.join` for the two-argument use at line 581 (posix rules). -/
def pathJoin (a b : String) : String :=
  if b.startsWith "/" then b
  else if a = "" ∨ a.endsWith "/" then a ++ b
  else a ++ "/" ++ b

/-- The output path `batch_process` builds for one input (lines 571-581):
`prefix + stem + suffix` plus `.jpg` for JPEG and `.png` otherwise, joined
onto the output directory. -/
def outputName (output_dir output_format pre suffix : String)
    (image_path : String) : String :=
  pathJoin output_dir
    (pre ++ stem image_path ++ suffix ++
      (if strUpper output_format = "JPEG" then ".jpg" else ".png"))

/-- `ImageProcessor.batch_process` (lines 550-591): per input, load (skip on
`None`), optional resize, watermark, build the output name, save (record the
path only on success); any per-item exception is caught and that item
skipped, so the loop always reaches the end of the list. -/
def batch_process (fs : FS) (oracle : PILOracle) (image_paths : List String)
    (config : WatermarkConfig) (output_dir output_format : String)
    (pre suffix : String) (resize_options : Option ResizeOptions) : List String :=
  match image_paths with
  | [] => []
  | image_path :: rest =>
    let tail := batch_process fs oracle rest config output_dir output_format
      pre suffix resize_options
    match load_image fs oracle image_path with
    | none => tail
    | some image =>
      let image :=
        match resize_options with
        | some opts => resize_image oracle image opts
        | none => image
      let watermarked := apply_watermark fs oracle image config
      let output_path := outputName output_dir output_format pre suffix image_path
      if save_image fs watermarked output_path then output_path :: tail else tail

/-! ## Concrete fixtures for witnesses -/

/-- A concrete instantiation of the abstracted PIL primitives, used to
evaluate the theorems at explicit inputs. -/
def sampleOracle : PILOracle where
  exifTranspose := id
  convertPx := fun _ p => { p with a := 255 }
  textbbox := fun _ _ _ => (0, 0, 5, 7)
  drawText := fun _ _ _ => ⟨0, 0, 0, 0⟩
  rotateDims := fun w h _ => (w, h)
  rotatePx := fun img _ x y => img.px x y
  resizePx := fun img _ _ x y => img.px x y
  skewPx := fun img x y => img.px x y

/-- A 4×4 opaque RGB photo. -/
def rgbSample : PImage :=
  ⟨4, 4, .RGB, fun _ _ => ⟨10, 20, 30, 255⟩⟩

/-- A 2×2 half-transparent RGBA watermark image. -/
def rgbaSample : PImage :=
  ⟨2, 2, .RGBA, fun _ _ => ⟨100, 150, 200, 128⟩⟩

/-- A filesystem holding one decodable photo and one decodable watermark
image, on which every write succeeds. -/
def fsSample : FS where
  pathExists := fun p => decide (p = "wm.png")
  fontOk := fun _ => false
  imageAt := fun p =>
    if p = "wm.png" then some rgbaSample
    else if p = "photo.png" then some rgbSample
    else none
  saveOk := fun _ => true

/-- An Image-kind configuration whose watermark file does not exist. -/
def cfgMissingWm : WatermarkConfig :=
  { WatermarkConfig.init with
    watermark_type := .image
    watermark_image_path := "missing.png" }

/-- An Image-kind configuration for `wm.png` at full opacity, unit scale and
no rotation. -/
def cfgImageWm : WatermarkConfig :=
  { WatermarkConfig.init with
    watermark_type := .image
    watermark_image_path := "wm.png"
    opacity := 100 }

/-- The same configuration at opacity 50. -/
def cfgImageWm50 : WatermarkConfig :=
  { WatermarkConfig.init with
    watermark_type := .image
    watermark_image_path := "wm.png"
    opacity := 50 }

/-- A 2×2 RGBA watermark image whose stored alpha is 100 — a float32
off-by-one point at opacity 53. -/
def rgbaA100 : PImage :=
  ⟨2, 2, .RGBA, fun _ _ => ⟨10, 20, 30, 100⟩⟩

/-- A filesystem holding `rgbaA100` at `wm2.png`. -/
def fsSampleB : FS where
  pathExists := fun p => decide (p = "wm2.png")
  fontOk := fun _ => false
  imageAt := fun p => if p = "wm2.png" then some rgbaA100 else none
  saveOk := fun _ => true

/-- An Image-kind configuration for `wm2.png` at opacity 53, unit scale and
no rotation. -/
def cfgImageWm53 : WatermarkConfig :=
  { WatermarkConfig.init with
    watermark_type := .image
    watermark_image_path := "wm2.png"
    opacity := 53 }

/-! ## Theorems -/

/-- C1: for every canvas size, layer size and configuration, each of the nine
named anchors resolves per axis to: margin on the near edge,
`canvas − layer − margin` on the far edge, `⌊(canvas − layer)/2⌋` for center;
the `custom` anchor returns the stored `(custom_x, custom_y)` verbatim.  No
clamping is applied in any case (the equations hold for all sizes and
margins, including ones that put the layer outside the canvas). -/
theorem calculate_position_anchor_spec (iw ih ww wh : Int) (cfg : WatermarkConfig) :
    calculate_position (iw, ih) (ww, wh) { cfg with position := .top_left }
      = (cfg.margin_x, cfg.margin_y) ∧
    calculate_position (iw, ih) (ww, wh) { cfg with position := .top_center }
      = (Int.fdiv (iw - ww) 2, cfg.margin_y) ∧
    calculate_position (iw, ih) (ww, wh) { cfg with position := .top_right }
      = (iw - ww - cfg.margin_x, cfg.margin_y) ∧
    calculate_position (iw, ih) (ww, wh) { cfg with position := .center_left }
      = (cfg.margin_x, Int.fdiv (ih - wh) 2) ∧
    calculate_position (iw, ih) (ww, wh) { cfg with position := .center }
      = (Int.fdiv (iw - ww) 2, Int.fdiv (ih - wh) 2) ∧
    calculate_position (iw, ih) (ww, wh) { cfg with position := .center_right }
      = (iw - ww - cfg.margin_x, Int.fdiv (ih - wh) 2) ∧
    calculate_position (iw, ih) (ww, wh) { cfg with position := .bottom_left }
      = (cfg.margin_x, ih - wh - cfg.margin_y) ∧
    calculate_position (iw, ih) (ww, wh) { cfg with position := .bottom_center }
      = (Int.fdiv (iw - ww) 2, ih - wh - cfg.margin_y) ∧
    calculate_position (iw, ih) (ww, wh) { cfg with position := .bottom_right }
      = (iw - ww - cfg.margin_x, ih - wh - cfg.margin_y) ∧
    calculate_position (iw, ih) (ww, wh) { cfg with position := .custom }
      = (cfg.custom_x, cfg.custom_y) :=
  ⟨rfl, rfl, rfl, rfl, rfl, rfl, rfl, rfl, rfl, rfl⟩

/-- The enum value strings parse back to the member they came from. -/
theorem WatermarkPosition.ofValue_toValue (p : WatermarkPosition) :
    WatermarkPosition.ofValue p.toValue = some p := by
  cases p <;> rfl

/-- C6: serialising any `WatermarkConfig` (Text-kind or Image-kind) to the
flat mapping and parsing it back restores every field exactly, and parsing a
mapping in which every key is missing supplies the documented default for
every field (the `WatermarkConfig.__init__` values). -/
theorem config_dict_round_trip (config : WatermarkConfig) :
    dict_to_config (config_to_dict config) = some config ∧
    dict_to_config ConfigDict.empty = some WatermarkConfig.init := by
  constructor
  · cases config with
    | mk wtype pos _ _ _ _ _ _ _ _ _ _ _ _ _ _ _ _ _ _ =>
      cases wtype <;> cases pos <;> rfl
  · rfl

theorem pickFont_usable (fs : FS) (l : List String) (size : Int) :
    fontUsable fs (pickFont fs l size) := by
  unfold pickFont
  cases h : l.find? (fun p => fs.pathExists p && fs.fontOk p) with
  | none => trivial
  | some p =>
    have hp := List.find?_some h
    simp only [Bool.and_eq_true] at hp
    exact hp

theorem pickFont_default (fs : FS) (l : List String) (size : Int)
    (h : ∀ p ∈ l, ¬((fs.pathExists p && fs.fontOk p) = true)) :
    pickFont fs l size = .loadDefault := by
  unfold pickFont
  rw [List.find?_eq_none.mpr h]

/-- C9: for every font family string, size and bold/italic flags, both
`get_font` and `get_chinese_font` return a handle (never raise: every
loader exception is caught and the loop continues) that is usable in the
ambient filesystem, and when no candidate file of the ordered list is
usable they fall through to the built-in default font. -/
theorem font_resolution_never_fails (fs : FS) (font_family : String)
    (font_size : Int) (bold italic : Bool) :
    fontUsable fs (get_font fs font_family font_size bold italic) ∧
    fontUsable fs (get_chinese_font fs font_family font_size bold italic) ∧
    ((∀ p ∈ fontCandidates font_family bold italic,
        ¬((fs.pathExists p && fs.fontOk p) = true)) →
      get_font fs font_family font_size bold italic = .loadDefault) ∧
    ((∀ p ∈ chineseCandidates font_family bold italic,
        ¬((fs.pathExists p && fs.fontOk p) = true)) →
      get_chinese_font fs font_family font_size bold italic = .loadDefault) :=
  ⟨pickFont_usable fs _ font_size, pickFont_usable fs _ font_size,
   fun h => pickFont_default fs _ font_size h,
   fun h => pickFont_default fs _ font_size h⟩

/-- Witness for C9 at concrete inputs: with no font file available at all,
both resolvers return the built-in default font for "Arial" bold and for
"微软雅黑" italic. -/
theorem font_resolution_never_fails_witness :
    get_font FS.nofiles "Arial" 36 true false = .loadDefault ∧
    get_chinese_font FS.nofiles "微软雅黑" 36 false true = .loadDefault := by
  have h1 := font_resolution_never_fails FS.nofiles "Arial" 36 true false
  have h2 := font_resolution_never_fails FS.nofiles "微软雅黑" 36 false true
  refine ⟨h1.2.2.1 ?_, h2.2.2.2 ?_⟩ <;>
    intro p _ <;> simp [FS.nofiles]

/-- C10: `load_image` returns `None` for an unsupported extension and for an
unreadable file (the exception is caught), and any image it does return has
mode `RGBA` — so every image entering watermarking, compositing and batch
processing carries an alpha channel. -/
theorem load_image_none_or_rgba (fs : FS) (oracle : PILOracle) (file_path : String) :
    (is_supported_format file_path = false → load_image fs oracle file_path = none) ∧
    (fs.imageAt file_path = none → load_image fs oracle file_path = none) ∧
    (∀ img, load_image fs oracle file_path = some img → img.mode = .RGBA) := by
  refine ⟨fun hu => ?_, fun hr => ?_, fun img himg => ?_⟩
  · simp [load_image, hu]
  · unfold load_image
    rw [hr]
    simp
  · unfold load_image at himg
    split at himg
    · exact absurd himg (by simp)
    · split at himg
      next => exact absurd himg (by simp)
      next im =>
        simp only [Option.some.injEq] at himg
        subst himg
        split
        next h => exact h
        next => rfl

/-- Witness for C10 at concrete inputs: an unsupported extension yields
`none`, and a decodable RGB photo comes back in mode `RGBA`. -/
theorem load_image_none_or_rgba_witness :
    load_image FS.nofiles sampleOracle "doc.txt" = none ∧
    (load_image fsSample sampleOracle "photo.png").map PImage.mode
      = some PMode.RGBA := by
  have h1 := (load_image_none_or_rgba FS.nofiles sampleOracle "doc.txt").1
  have h2 := (load_image_none_or_rgba fsSample sampleOracle "photo.png").2.2
  have hc : load_image fsSample sampleOracle "photo.png"
      = some (convertRGBA sampleOracle rgbSample) := rfl
  refine ⟨h1 rfl, ?_⟩
  rw [hc]
  exact congrArg some (h2 _ hc)

theorem alphaFromOpacity_natCast (n : Nat) :
    alphaFromOpacity (n : Int) = ((255 * n / 100 : Nat) : Int) := rfl

/-- C4 counterexample: the code applies no clamping to `opacity`; at the
concrete config value `opacity = 150` the computed text-fill alpha
`int(255 * 150 / 100)` is `382`, outside `[0, 255]`. -/
theorem text_alpha_out_of_range :
    (textFillColor { WatermarkConfig.init with opacity := 150 }).2 = 382 ∧
    ¬((textFillColor { WatermarkConfig.init with opacity := 150 }).2 ≤ 255) := by
  exact ⟨rfl, by decide⟩

/-- C4 as amended: for opacity in `[0, 100]` the per-pixel alpha
`int(255 * opacity / 100)` used for text fill, stroke and shadow lies in
`[0, 255]` (and the three passes share the one alpha value); the code
performs no clamping, so opacity outside `[0, 100]` escapes that range. -/
theorem text_alpha_in_range (opacity : Int) (cfg : WatermarkConfig)
    (h0 : 0 ≤ opacity) (h1 : opacity ≤ 100) :
    0 ≤ (textFillColor { cfg with opacity := opacity }).2 ∧
    (textFillColor { cfg with opacity := opacity }).2 ≤ 255 ∧
    (strokeFillColor { cfg with opacity := opacity }).2
      = (textFillColor { cfg with opacity := opacity }).2 ∧
    (shadowFillColor { cfg with opacity := opacity }).2
      = (textFillColor { cfg with opacity := opacity }).2 := by
  obtain ⟨n, rfl⟩ := Int.eq_ofNat_of_zero_le h0
  have hn : n ≤ 100 := by exact_mod_cast h1
  have hv : (textFillColor { cfg with opacity := (n : Int) }).2
      = ((255 * n / 100 : Nat) : Int) := alphaFromOpacity_natCast n
  refine ⟨?_, ?_, rfl, rfl⟩
  · rw [hv]
    exact Int.natCast_nonneg _
  · rw [hv]
    have hb : 255 * n / 100 ≤ 255 := by
      calc 255 * n / 100 ≤ 255 * 100 / 100 :=
            Nat.div_le_div_right (Nat.mul_le_mul_left 255 hn)
        _ = 255 := by norm_num
    exact_mod_cast hb

/-- Witness for C4's amended theorem at opacity 75. -/
theorem text_alpha_in_range_witness :
    0 ≤ (textFillColor { WatermarkConfig.init with opacity := 75 }).2 ∧
    (textFillColor { WatermarkConfig.init with opacity := 75 }).2 ≤ 255 ∧
    (strokeFillColor { WatermarkConfig.init with opacity := 75 }).2
      = (textFillColor { WatermarkConfig.init with opacity := 75 }).2 ∧
    (shadowFillColor { WatermarkConfig.init with opacity := 75 }).2
      = (textFillColor { WatermarkConfig.init with opacity := 75 }).2 :=
  text_alpha_in_range 75 WatermarkConfig.init (by norm_num) (by norm_num)

set_option maxRecDepth 4096 in
theorem muldiv255_full : ∀ v : Nat, v ≤ 255 → muldiv255 v 255 = v := by decide

theorem muldiv255_zero_right (v : Nat) : muldiv255 v 0 = 0 := by
  unfold muldiv255
  simp

theorem blend255_opaque (v : Nat) (hv : v ≤ 255) : blend255 255 v 255 = v := by
  show muldiv255 255 0 + muldiv255 v 255 = v
  rw [muldiv255_zero_right 255, muldiv255_full v hv]
  exact Nat.zero_add v

theorem blend255_transparent (v : Nat) : blend255 255 v 0 = 255 := by
  show muldiv255 255 255 + muldiv255 v 0 = 255
  rw [muldiv255_zero_right v, muldiv255_full 255 (by norm_num)]

/-- C5: saving a mode-`RGBA` image as JPEG hands the encoder the straight
alpha-over-white flatten of the image: an `RGB` image (no alpha channel)
whose pixels blend the source over opaque white under the source's own
alpha — a fully opaque pixel keeps its colour, a fully transparent pixel
becomes white.  Saving as PNG hands the encoder the image unchanged. -/
theorem save_image_flatten_spec (image : PImage) (hmode : image.mode = .RGBA)
    (hwf : image.wf) :
    save_image_encoded image "JPEG" = flattenWhite image ∧
    (save_image_encoded image "JPEG").mode = .RGB ∧
    (∀ x y,
      ((save_image_encoded image "JPEG").px x y).a = 255 ∧
      ((save_image_encoded image "JPEG").px x y).r
        = blend255 255 (image.px x y).r (image.px x y).a ∧
      ((image.px x y).a = 255 →
        (save_image_encoded image "JPEG").px x y
          = ⟨(image.px x y).r, (image.px x y).g, (image.px x y).b, 255⟩) ∧
      ((image.px x y).a = 0 →
        (save_image_encoded image "JPEG").px x y = ⟨255, 255, 255, 255⟩)) ∧
    save_image_encoded image "PNG" = image := by
  have hju : strUpper "JPEG" = "JPEG" := rfl
  have henc : save_image_encoded image "JPEG" = flattenWhite image := by
    unfold save_image_encoded
    rw [if_pos hju, if_pos hmode]
  refine ⟨henc, by rw [henc]; rfl, fun x y => ?_, ?_⟩
  · rw [henc]
    refine ⟨rfl, rfl, fun ha => ?_, fun ha => ?_⟩
    · show (⟨blend255 255 (image.px x y).r (image.px x y).a,
             blend255 255 (image.px x y).g (image.px x y).a,
             blend255 255 (image.px x y).b (image.px x y).a, 255⟩ : Pix) = _
      rw [ha, blend255_opaque _ (hwf x y).1, blend255_opaque _ (hwf x y).2.1,
        blend255_opaque _ (hwf x y).2.2.1]
    · show (⟨blend255 255 (image.px x y).r (image.px x y).a,
             blend255 255 (image.px x y).g (image.px x y).a,
             blend255 255 (image.px x y).b (image.px x y).a, 255⟩ : Pix) = _
      rw [ha, blend255_transparent, blend255_transparent, blend255_transparent]
  · unfold save_image_encoded
    rw [if_neg (by decide : ¬(strUpper "PNG" = "JPEG"))]

theorem rgbaSample_wf : rgbaSample.wf := by
  intro x y
  refine ⟨?_, ?_, ?_, ?_⟩ <;> norm_num [rgbaSample]

/-- Witness for C5 on the concrete half-transparent 2×2 image. -/
theorem save_image_flatten_spec_witness :
    (save_image_encoded rgbaSample "JPEG").mode = .RGB ∧
    ((save_image_encoded rgbaSample "JPEG").px 0 0).a = 255 ∧
    ((save_image_encoded rgbaSample "JPEG").px 0 0).r
      = blend255 255 (rgbaSample.px 0 0).r (rgbaSample.px 0 0).a ∧
    save_image_encoded rgbaSample "PNG" = rgbaSample := by
  have h := save_image_flatten_spec rgbaSample rfl rgbaSample_wf
  exact ⟨h.2.1, (h.2.2.1 0 0).1, (h.2.2.1 0 0).2.1, h.2.2.2⟩

/-- C2: `batch_process` returns exactly the output paths of the inputs that
load successfully and whose save succeeds, in input order, each named
`output_dir/prefix + stem(input) + suffix + extension` with `.jpg` for JPEG
and `.png` otherwise; a failing input is skipped and the loop always reaches
the end of the list. -/
theorem batch_process_filter_map (fs : FS) (oracle : PILOracle)
    (image_paths : List String) (config : WatermarkConfig)
    (output_dir output_format pre suffix : String)
    (resize_options : Option ResizeOptions) :
    batch_process fs oracle image_paths config output_dir output_format
        pre suffix resize_options =
      (image_paths.filter (fun p =>
        (load_image fs oracle p).isSome &&
          fs.saveOk (outputName output_dir output_format pre suffix p))).map
        (outputName output_dir output_format pre suffix) := by
  induction image_paths with
  | nil => rfl
  | cons p rest ih =>
    rw [List.filter_cons]
    unfold batch_process
    cases h : load_image fs oracle p with
    | none => simp [h, ih]
    | some img =>
      cases hs : fs.saveOk (outputName output_dir output_format pre suffix p) with
      | false => simp [h, hs, ih, save_image]
      | true => simp [h, hs, ih, save_image]

/-- C3 counterexample: for an Image-kind configuration whose watermark file
does not exist, `apply_watermark` returns the input image itself (source
line 493 `return image`), not a new image distinct from its input. -/
theorem apply_watermark_missing_file_returns_input :
    apply_watermark FS.nofiles sampleOracle rgbSample cfgMissingWm
      = rgbSample := rfl

/-- C3 as amended: `apply_watermark` never raises and never mutates the
input's pixels; a Text-kind config always yields a layer; when a layer is
produced the result is the layer pasted onto a copy of the input — same
canvas, input pixels preserved outside the pasted rectangle; when no layer
could be produced the input image itself is returned unmodified (not a
copy). -/
theorem apply_watermark_copy_semantics (fs : FS) (oracle : PILOracle)
    (image : PImage) (config : WatermarkConfig) :
    (config.watermark_type = .text →
      (layerOf fs oracle config).isSome = true) ∧
    (layerOf fs oracle config = none →
      apply_watermark fs oracle image config = image) ∧
    (∀ wm, layerOf fs oracle config = some wm →
      apply_watermark fs oracle image config
        = pasteRegion image wm
            (calculate_position (image.width, image.height)
              (wm.width, wm.height) config) ∧
      (apply_watermark fs oracle image config).width = image.width ∧
      (apply_watermark fs oracle image config).height = image.height ∧
      (∀ x y,
        ¬((calculate_position (image.width, image.height)
              (wm.width, wm.height) config).1 ≤ x ∧
          x < (calculate_position (image.width, image.height)
              (wm.width, wm.height) config).1 + wm.width ∧
          (calculate_position (image.width, image.height)
              (wm.width, wm.height) config).2 ≤ y ∧
          y < (calculate_position (image.width, image.height)
              (wm.width, wm.height) config).2 + wm.height) →
        (apply_watermark fs oracle image config).px x y = image.px x y)) := by
  refine ⟨fun ht => ?_, fun hn => ?_, fun wm hw => ?_⟩
  · simp [layerOf, ht]
  · unfold apply_watermark
    rw [hn]
  · have happly : apply_watermark fs oracle image config
        = pasteRegion image wm
            (calculate_position (image.width, image.height)
              (wm.width, wm.height) config) := by
      unfold apply_watermark
      rw [hw]
    refine ⟨happly, by rw [happly]; rfl, by rw [happly]; rfl,
      fun x y hout => ?_⟩
    rw [happly]
    exact if_neg hout

/-- Witness for C3's amended theorem: on the sample filesystem the layer is
the decoded watermark image and the result is the paste onto a copy; with
the file missing the result is the input itself. -/
theorem apply_watermark_copy_semantics_witness :
    apply_watermark fsSample sampleOracle rgbSample cfgImageWm
      = pasteRegion rgbSample rgbaSample
          (calculate_position (rgbSample.width, rgbSample.height)
            (rgbaSample.width, rgbaSample.height) cfgImageWm) ∧
    apply_watermark FS.nofiles sampleOracle rgbSample cfgMissingWm
      = rgbSample := by
  refine ⟨((apply_watermark_copy_semantics fsSample sampleOracle rgbSample
      cfgImageWm).2.2 rgbaSample rfl).1,
    (apply_watermark_copy_semantics FS.nofiles sampleOracle rgbSample
      cfgMissingWm).2.1 rfl⟩

theorem half_bound (R N D : ℕ) (hD : (0:ℚ) < D)
    (h : |(R:ℚ) * D - N| * 2 ≤ D) :
    |(R:ℚ) - (N:ℚ)/D| ≤ 1/2 := by
  rw [show (R:ℚ) - (N:ℚ)/D = ((R:ℚ)*D - N)/D from by field_simp, abs_div,
    abs_of_pos hD, div_le_iff₀ hD]
  linarith

theorem roundNearestEvenND_close (N D : Nat) (hD : 0 < D) :
    |(roundNearestEvenND N D : ℚ) - (N : ℚ) / D| ≤ 1 / 2 := by
  have hD' : (0:ℚ) < D := by exact_mod_cast hD
  have h1 : N % D < D := Nat.mod_lt _ hD
  have hNq : (N : ℚ) = (D : ℚ) * ((N / D : ℕ) : ℚ) + ((N % D : ℕ) : ℚ) := by
    exact_mod_cast (Nat.div_add_mod N D).symm
  unfold roundNearestEvenND
  split
  next hc =>
    apply half_bound _ _ _ hD'
    have e1 : ((N/D : ℕ):ℚ) * D - N = -(((N % D : ℕ)):ℚ) := by
      rw [hNq]; ring
    rw [e1, abs_neg, abs_of_nonneg (by positivity)]
    have hc' : ((N % D : ℕ):ℚ) * 2 ≤ D := by
      have := (Nat.cast_lt (α := ℚ)).mpr hc
      push_cast at this
      linarith
    linarith
  next hc =>
    split
    next hc2 =>
      apply half_bound _ _ _ hD'
      have e2 : ((N/D + 1 : ℕ):ℚ) * D - N = (D:ℚ) - ((N % D : ℕ):ℚ) := by
        push_cast
        rw [hNq]; ring
      rw [e2, abs_of_nonneg (by
        have := (Nat.cast_le (α := ℚ)).mpr (le_of_lt h1)
        linarith)]
      have hc2' : (D:ℚ) ≤ ((N % D : ℕ):ℚ) * 2 := by
        have := (Nat.cast_lt (α := ℚ)).mpr hc2
        push_cast at this
        linarith
      linarith
    next hc2 =>
      have heq : 2 * (N % D) = D := by omega
      have heq' : ((N % D : ℕ):ℚ) * 2 = D := by
        have := congrArg (fun n : ℕ => (n : ℚ)) heq
        push_cast at this
        linarith
      split
      · apply half_bound _ _ _ hD'
        have e1 : ((N/D : ℕ):ℚ) * D - N = -(((N % D : ℕ)):ℚ) := by
          rw [hNq]; ring
        rw [e1, abs_neg, abs_of_nonneg (by positivity)]
        linarith
      · apply half_bound _ _ _ hD'
        have e2 : ((N/D + 1 : ℕ):ℚ) * D - N = (D:ℚ) - ((N % D : ℕ):ℚ) := by
          push_cast
          rw [hNq]; ring
        rw [e2, abs_of_nonneg (by
          have := (Nat.cast_le (α := ℚ)).mpr (le_of_lt h1)
          linarith)]
        linarith

theorem natLog2Aux_spec : ∀ fuel n, 1 ≤ n → n ≤ fuel →
    2 ^ natLog2Aux fuel n ≤ n ∧ n < 2 ^ (natLog2Aux fuel n + 1) := by
  intro fuel
  induction fuel with
  | zero => intro n h1 h2; omega
  | succ f ih =>
    intro n h1 h2
    by_cases hn : n ≤ 1
    · have hone : n = 1 := by omega
      subst hone
      norm_num [natLog2Aux]
    · have h1' : 1 ≤ n / 2 := by omega
      have h2' : n / 2 ≤ f := by omega
      have hrec := ih (n / 2) h1' h2'
      simp only [natLog2Aux, if_neg hn]
      have hp1 : 2 ^ (natLog2Aux f (n / 2) + 1) = 2 * 2 ^ natLog2Aux f (n / 2) := by
        ring
      have hp2 : 2 ^ (natLog2Aux f (n / 2) + 1 + 1)
          = 2 * 2 ^ (natLog2Aux f (n / 2) + 1) := by
        ring
      omega

theorem natLog2_spec (n : Nat) (h : 1 ≤ n) :
    2 ^ natLog2 n ≤ n ∧ n < 2 ^ (natLog2 n + 1) :=
  natLog2Aux_spec n n h le_rfl

theorem zpow_le_div_iff_of_nonneg (N D : Nat) (e : ℤ) (hD : 0 < D) (he : 0 ≤ e) :
    ((2:ℚ) ^ e ≤ (N:ℚ) / D) ↔ D * 2 ^ e.toNat ≤ N := by
  obtain ⟨k, rfl⟩ := Int.eq_ofNat_of_zero_le he
  rw [zpow_natCast, Int.toNat_natCast, le_div_iff₀ (by exact_mod_cast hD : (0:ℚ) < D),
    mul_comm]
  exact_mod_cast Iff.rfl

theorem zpow_le_div_iff_of_neg (N D : Nat) (e : ℤ) (hD : 0 < D) (he : e < 0) :
    ((2:ℚ) ^ e ≤ (N:ℚ) / D) ↔ D ≤ N * 2 ^ (-e).toNat := by
  set k := (-e).toNat with hk
  have hek : e = -(k : ℤ) := by omega
  rw [hek, zpow_neg, zpow_natCast, inv_eq_one_div,
    div_le_div_iff₀ (by positivity) (by exact_mod_cast hD : (0:ℚ) < D), one_mul]
  exact_mod_cast Iff.rfl

theorem qlog2ND_spec (N D : Nat) (hN : 1 ≤ N) (hD : 1 ≤ D) :
    (2:ℚ) ^ qlog2ND N D ≤ (N:ℚ)/D ∧ (N:ℚ)/D < (2:ℚ) ^ (qlog2ND N D + 1) := by
  obtain ⟨ha1, ha2⟩ := natLog2_spec N hN
  obtain ⟨hb1, hb2⟩ := natLog2_spec D hD
  have hD' : (0:ℚ) < D := by exact_mod_cast hD
  have hN' : (0:ℚ) < N := by exact_mod_cast hN
  set a := natLog2 N with hadef
  set b := natLog2 D with hbdef
  set e0 : Int := (a : Int) - (b : Int) with he0
  -- the two algebraic bounds from the integer logarithms
  have hup : (N:ℚ)/D < 2 ^ (e0 + 1) := by
    rw [div_lt_iff₀ hD']
    have h1 : (N:ℚ) < 2^(a+1) := by exact_mod_cast ha2
    have h2 : ((2:ℚ))^(b:ℕ) ≤ (D:ℚ) := by exact_mod_cast hb1
    have hsplit : (2:ℚ) ^ ((a:ℤ)+1) = 2 ^ (e0 + 1) * 2 ^ (b:ℤ) := by
      rw [← zpow_add₀ (two_ne_zero)]
      congr 1
      omega
    calc (N:ℚ) < 2^(a+1) := h1
      _ = (2:ℚ) ^ ((a:ℤ)+1) := by
          rw [show ((a:ℤ)+1) = ((a+1 : ℕ) : ℤ) from by omega, zpow_natCast]
      _ = 2 ^ (e0 + 1) * 2 ^ (b:ℤ) := hsplit
      _ ≤ 2 ^ (e0 + 1) * D := by
          apply mul_le_mul_of_nonneg_left _ (le_of_lt (zpow_pos (show (0:ℚ) < 2 from by norm_num) _))
          rw [zpow_natCast]
          exact h2
  have hlow : 2 ^ (e0 - 1) < (N:ℚ)/D := by
    rw [lt_div_iff₀ hD']
    have h1 : ((2:ℚ))^(a:ℕ) ≤ (N:ℚ) := by exact_mod_cast ha1
    have h2 : (D:ℚ) < 2^(b+1) := by exact_mod_cast hb2
    have hsplit : (2:ℚ) ^ (a:ℤ) = 2 ^ (e0 - 1) * 2 ^ ((b:ℤ)+1) := by
      rw [← zpow_add₀ (two_ne_zero)]
      congr 1
      omega
    calc 2 ^ (e0 - 1) * (D:ℚ) < 2 ^ (e0 - 1) * 2^((b:ℤ)+1) := by
          apply mul_lt_mul_of_pos_left _ (zpow_pos (show (0:ℚ) < 2 from by norm_num) _)
          rw [show ((b:ℤ)+1) = ((b+1 : ℕ) : ℤ) from by omega, zpow_natCast]
          exact h2
      _ = (2:ℚ) ^ (a:ℤ) := hsplit.symm
      _ ≤ (N:ℚ) := by rw [zpow_natCast]; exact h1
  unfold qlog2ND
  rw [← hadef, ← hbdef, ← he0]
  dsimp only
  split
  next hpos =>
    split
    next htest =>
      exact ⟨(zpow_le_div_iff_of_nonneg N D e0 (by omega) hpos).mpr htest, hup⟩
    next htest =>
      refine ⟨le_of_lt hlow, ?_⟩
      rw [show e0 - 1 + 1 = e0 from by ring]
      exact lt_of_not_le
        (fun hcon => htest ((zpow_le_div_iff_of_nonneg N D e0 (by omega) hpos).mp hcon))
  next hpos =>
    have hneg : e0 < 0 := by omega
    split
    next htest =>
      exact ⟨(zpow_le_div_iff_of_neg N D e0 (by omega) hneg).mpr htest, hup⟩
    next htest =>
      refine ⟨le_of_lt hlow, ?_⟩
      rw [show e0 - 1 + 1 = e0 from by ring]
      exact lt_of_not_le
        (fun hcon => htest ((zpow_le_div_iff_of_neg N D e0 (by omega) hneg).mp hcon))

theorem flND_err (p N D : Nat) (hD : 1 ≤ D) :
    |dyVal (flND p N D) - (N:ℚ)/D| ≤ ((N:ℚ)/D) * (2:ℚ)^(-(p:ℤ)) := by
  by_cases hN0 : N = 0
  · subst hN0
    simp [flND, dyVal]
  · have hN : 1 ≤ N := Nat.one_le_iff_ne_zero.mpr hN0
    obtain ⟨hE1, hE2⟩ := qlog2ND_spec N D hN hD
    have hD' : (0:ℚ) < D := by exact_mod_cast hD
    unfold flND
    rw [if_neg hN0]
    dsimp only
    set e := qlog2ND N D with he
    set s : Int := (p:ℤ) - 1 - e with hs
    have hm : ∀ m : ℕ, |(m:ℚ) - ((N:ℚ)/D) * 2^s| ≤ 1/2 →
        |dyVal (m, e + 1 - (p:ℤ)) - (N:ℚ)/D| ≤ ((N:ℚ)/D) * (2:ℚ)^(-(p:ℤ)) := by
      intro m hclose
      have hexp : e + 1 - (p:ℤ) = -s := by omega
      unfold dyVal
      dsimp only
      rw [hexp]
      have hcancel : ((N:ℚ)/D) * 2^s * 2^(-s:ℤ) = (N:ℚ)/D := by
        rw [mul_assoc, ← zpow_add₀ (two_ne_zero)]
        norm_num
      have hfact : (m:ℚ) * 2^(-s:ℤ) - (N:ℚ)/D
          = ((m:ℚ) - ((N:ℚ)/D) * 2^s) * 2^(-s:ℤ) := by
        rw [sub_mul, hcancel]
      rw [hfact, abs_mul, abs_of_pos (zpow_pos (show (0:ℚ) < 2 from by norm_num) _)]
      have step1 : |(m:ℚ) - ((N:ℚ)/D) * 2^s| * 2^(-s:ℤ) ≤ (1/2) * 2^(-s:ℤ) :=
        mul_le_mul_of_nonneg_right hclose (le_of_lt (zpow_pos (show (0:ℚ) < 2 from by norm_num) _))
      have step2 : (1/2 : ℚ) * 2^(-s:ℤ) = 2^(e - (p:ℤ)) := by
        rw [show (1/2 : ℚ) = 2^(-1 : ℤ) from by norm_num,
          ← zpow_add₀ (two_ne_zero)]
        congr 1
        omega
      have step3 : (2:ℚ)^(e - (p:ℤ)) ≤ ((N:ℚ)/D) * 2^(-(p:ℤ)) := by
        rw [show e - (p:ℤ) = e + (-(p:ℤ)) from by ring, zpow_add₀ (two_ne_zero)]
        exact mul_le_mul_of_nonneg_right hE1 (le_of_lt (zpow_pos (show (0:ℚ) < 2 from by norm_num) _))
      calc |(m:ℚ) - ((N:ℚ)/D) * 2^s| * 2^(-s:ℤ)
          ≤ (1/2) * 2^(-s:ℤ) := step1
        _ = 2^(e - (p:ℤ)) := step2
        _ ≤ ((N:ℚ)/D) * 2^(-(p:ℤ)) := step3
    split
    next hspos =>
      apply hm
      have hcast : ((2:ℚ)^(s.toNat : ℕ)) = 2^s := by
        rw [← zpow_natCast]
        congr 1
        omega
      have hscale : ((N * 2 ^ s.toNat : ℕ):ℚ) / D = ((N:ℚ)/D) * 2^s := by
        push_cast
        rw [hcast]
        ring
      have hround := roundNearestEvenND_close (N * 2 ^ s.toNat) D (by omega)
      rw [hscale] at hround
      exact hround
    next hsneg =>
      apply hm
      have hcast : ((2:ℚ)^((-s).toNat : ℕ)) = 2^(-s : ℤ) := by
        rw [← zpow_natCast]
        congr 1
        omega
      have hscale : (N:ℚ) / ((D * 2 ^ (-s).toNat : ℕ):ℚ) = ((N:ℚ)/D) * 2^s := by
        push_cast
        rw [hcast, div_mul_eq_div_div, div_eq_mul_inv ((N:ℚ)/D), ← zpow_neg,
          neg_neg]
      have hround := roundNearestEvenND_close N (D * 2 ^ (-s).toNat) (by positivity)
      rw [hscale] at hround
      exact hround

theorem dyVal_of_nonneg (m : Nat) (k : Int) (hk : 0 ≤ k) :
    dyVal (m, k) = ((m * 2 ^ k.toNat : ℕ) : ℚ) := by
  unfold dyVal
  dsimp only
  push_cast
  rw [show ((2:ℚ)^(k.toNat:ℕ)) = 2^k from by rw [← zpow_natCast]; congr 1; omega]

theorem dyVal_of_neg (m : Nat) (k : Int) (hk : ¬ 0 ≤ k) :
    dyVal (m, k) = (m:ℚ) / ((2 ^ (-k).toNat : ℕ) : ℚ) := by
  unfold dyVal
  dsimp only
  push_cast
  rw [show ((2:ℚ)^((-k).toNat:ℕ)) = 2^(-k : ℤ) from by
      rw [← zpow_natCast]; congr 1; omega,
    div_eq_mul_inv, ← zpow_neg, neg_neg]

theorem dyVal_mul_nat (m a : Nat) (k : Int) :
    dyVal (m * a, k) = dyVal (m, k) * a := by
  unfold dyVal
  dsimp only
  push_cast
  ring

theorem flDyadic_err (p m : Nat) (k : Int) :
    |dyVal (flDyadic p m k) - dyVal (m, k)| ≤ dyVal (m, k) * (2:ℚ)^(-(p:ℤ)) := by
  unfold flDyadic
  split
  next hk =>
    have h := flND_err p (m * 2 ^ k.toNat) 1 le_rfl
    simp only [Nat.cast_one, div_one] at h
    rw [dyVal_of_nonneg m k hk]
    exact h
  next hk =>
    have h := flND_err p m (2 ^ (-k).toNat) (Nat.one_le_two_pow)
    rw [dyVal_of_neg m k hk]
    exact h

theorem dyTrunc_bounds (m : Nat) (k : Int) :
    ((if 0 ≤ k then m * 2 ^ k.toNat else m / 2 ^ (-k).toNat : Nat) : ℚ)
        ≤ dyVal (m, k) ∧
    dyVal (m, k)
        < ((if 0 ≤ k then m * 2 ^ k.toNat else m / 2 ^ (-k).toNat : Nat) : ℚ) + 1 := by
  split
  next hk =>
    rw [dyVal_of_nonneg m k hk]
    exact ⟨le_refl _, lt_add_one _⟩
  next hk =>
    rw [dyVal_of_neg m k hk]
    have h0 : 0 < 2 ^ (-k).toNat := Nat.two_pow_pos _
    have h2 : (0:ℚ) < ((2 ^ (-k).toNat : ℕ):ℚ) := by exact_mod_cast h0
    constructor
    · rw [le_div_iff₀ h2]
      exact_mod_cast Nat.div_mul_le_self m (2 ^ (-k).toNat)
    · rw [div_lt_iff₀ h2]
      have hlt : m < (m / 2 ^ (-k).toNat + 1) * 2 ^ (-k).toNat := by
        have hdm := Nat.div_add_mod m (2 ^ (-k).toNat)
        have hmod : m % 2 ^ (-k).toNat < 2 ^ (-k).toNat := Nat.mod_lt _ h0
        calc m = 2 ^ (-k).toNat * (m / 2 ^ (-k).toNat) + m % 2 ^ (-k).toNat :=
              hdm.symm
          _ < 2 ^ (-k).toNat * (m / 2 ^ (-k).toNat) + 2 ^ (-k).toNat := by omega
          _ = (m / 2 ^ (-k).toNat + 1) * 2 ^ (-k).toNat := by ring
      exact_mod_cast hlt

theorem two_zpow_neg_nat_le (p : ℕ) (hp : 23 ≤ p) :
    (2:ℚ)^(-(p:ℤ)) ≤ 1/4000000 := by
  have h1 : (2:ℚ)^(-(p:ℤ)) = ((2:ℚ)^(p:ℕ))⁻¹ := by
    rw [zpow_neg, zpow_natCast]
  have h2 : (4000000:ℚ) ≤ (2:ℚ)^(p:ℕ) := by
    calc (4000000:ℚ) ≤ 2^23 := by norm_num
      _ ≤ 2^p := by
        apply pow_le_pow_right₀ (by norm_num) hp
  rw [h1]
  rw [inv_eq_one_div, div_le_div_iff₀ (by positivity) (by norm_num)]
  linarith

theorem chain_close (q0 F1 F2 P A c53 c24 : ℚ)
    (hq0a : 1/100 ≤ q0) (hq0b : q0 ≤ 99/100)
    (hA0 : 0 ≤ A) (hA : A ≤ 255)
    (hc53 : c53 ≤ 1/4000000) (hc24 : c24 ≤ 1/4000000)
    (h1 : |F1 - q0| ≤ q0 * c53)
    (h2 : |F2 - F1| ≤ F1 * c24)
    (h3 : |P - F2 * A| ≤ F2 * A * c24) :
    |P - q0 * A| ≤ 1/1000 := by
  obtain ⟨h1a, h1b⟩ := abs_le.mp h1
  obtain ⟨h2a, h2b⟩ := abs_le.mp h2
  obtain ⟨h3a, h3b⟩ := abs_le.mp h3
  have hq0pos : (0:ℚ) < q0 := by linarith
  have hb1 : q0 * c53 ≤ q0 * (1/4000000) :=
    mul_le_mul_of_nonneg_left hc53 (le_of_lt hq0pos)
  have hb1' : q0 * (1/4000000) ≤ 1/4000000 := by linarith
  have hF1low : q0 - 1/4000000 ≤ F1 := by linarith
  have hF1pos : (0:ℚ) ≤ F1 := by linarith
  have hF1up : F1 ≤ 1 := by linarith
  have hb2 : F1 * c24 ≤ F1 * (1/4000000) :=
    mul_le_mul_of_nonneg_left hc24 hF1pos
  have hb2' : F1 * (1/4000000) ≤ 1/4000000 := by linarith
  have hF2q0a : F2 - q0 ≤ 1/2000000 := by linarith
  have hF2q0b : q0 - F2 ≤ 1/2000000 := by linarith
  have hF2pos : (0:ℚ) ≤ F2 := by linarith
  have hF2up : F2 ≤ 1 := by linarith
  have hFA0 : (0:ℚ) ≤ F2 * A := mul_nonneg hF2pos hA0
  have hFA : F2 * A ≤ 1 * 255 :=
    mul_le_mul hF2up hA hA0 (by norm_num)
  have hb3 : F2 * A * c24 ≤ F2 * A * (1/4000000) :=
    mul_le_mul_of_nonneg_left hc24 hFA0
  have hb3' : F2 * A * (1/4000000) ≤ 255/4000000 := by linarith
  have hmid1 : (F2 - q0) * A ≤ (1/2000000) * A :=
    mul_le_mul_of_nonneg_right hF2q0a hA0
  have hmid2 : (q0 - F2) * A ≤ (1/2000000) * A :=
    mul_le_mul_of_nonneg_right hF2q0b hA0
  have hmid3 : (1/2000000 : ℚ) * A ≤ 255/2000000 := by linarith
  have hexp1 : F2 * A - q0 * A = (F2 - q0) * A := by ring
  have hexp2 : q0 * A - F2 * A = (q0 - F2) * A := by ring
  rw [abs_le]
  constructor <;> linarith

theorem floor_bracket_of_close (T E : Nat) (P u : ℚ)
    (hTP1 : (T:ℚ) ≤ P) (hTP2 : P < (T:ℚ) + 1)
    (hu : u = (E:ℚ)/100)
    (hclose : |P - u| ≤ 1/1000) :
    T ≤ E / 100 ∧ E / 100 ≤ T + 1 ∧ (E % 100 ≠ 0 → T = E / 100) := by
  have hdm : 100 * (E / 100) + E % 100 = E := Nat.div_add_mod E 100
  have hmod : E % 100 < 100 := Nat.mod_lt _ (by norm_num)
  have hEq : (E:ℚ) = 100 * ((E/100 : ℕ):ℚ) + ((E % 100 : ℕ):ℚ) := by
    exact_mod_cast hdm.symm
  have hu2 : u = ((E/100 : ℕ):ℚ) + ((E % 100 : ℕ):ℚ)/100 := by
    rw [hu, hEq]
    ring
  obtain ⟨hc1, hc2⟩ := abs_le.mp hclose
  have hR9 : ((E % 100 : ℕ):ℚ) ≤ 99 := by
    have : E % 100 ≤ 99 := by omega
    exact_mod_cast this
  have hR0 : (0:ℚ) ≤ ((E % 100 : ℕ):ℚ) := by positivity
  have hpart1 : T ≤ E / 100 := by
    have hq : (T:ℚ) < ((E/100 : ℕ):ℚ) + 1 := by
      rw [hu2] at hc2
      linarith
    have : T < E / 100 + 1 := by exact_mod_cast hq
    omega
  refine ⟨hpart1, ?_, ?_⟩
  · have hq : ((E/100 : ℕ):ℚ) < (T:ℚ) + 2 := by
      rw [hu2] at hc1
      linarith
    have : E / 100 < T + 2 := by exact_mod_cast hq
    omega
  · intro hR
    have hR1 : (1:ℚ) ≤ ((E % 100 : ℕ):ℚ) := by
      have : 1 ≤ E % 100 := by omega
      exact_mod_cast this
    have hq : ((E/100 : ℕ):ℚ) < (T:ℚ) + 1 := by
      rw [hu2] at hc1
      linarith
    have : E / 100 < T + 1 := by exact_mod_cast hq
    omega

theorem flND_zero_num (p D : Nat) : flND p 0 D = (0, 0) := by
  unfold flND
  simp

theorem flDyadic_zero_m (p : Nat) (k : Int) : flDyadic p 0 k = (0, 0) := by
  unfold flDyadic
  split <;> simp [flND_zero_num]

theorem scaledAlphaCore_zero_left (op : Nat) : scaledAlphaCore 0 op = 0 := by
  unfold scaledAlphaCore
  simp [flDyadic_zero_m]

theorem scaledAlphaCore_zero_right (a : Nat) : scaledAlphaCore a 0 = 0 := by
  unfold scaledAlphaCore
  simp [flND_zero_num, flDyadic_zero_m]

theorem scaledAlphaCore_bracket (a op : Nat) (hop : op < 100) (ha : a ≤ 255) :
    scaledAlphaCore a op ≤ a * op / 100 ∧
    a * op / 100 ≤ scaledAlphaCore a op + 1 ∧
    (a * op % 100 ≠ 0 → scaledAlphaCore a op = a * op / 100) := by
  by_cases hop0 : op = 0
  · subst hop0
    rw [scaledAlphaCore_zero_right]
    simp
  by_cases ha0 : a = 0
  · subst ha0
    rw [scaledAlphaCore_zero_left]
    simp
  have hop1 : 1 ≤ op := by omega
  have ha1 : 1 ≤ a := by omega
  have h1 := flND_err 53 op 100 (by norm_num)
  have h2 := flDyadic_err 24 (flND 53 op 100).1 (flND 53 op 100).2
  simp only [Prod.mk.eta] at h2
  have h3 := flDyadic_err 24
    ((flDyadic 24 (flND 53 op 100).1 (flND 53 op 100).2).1 * a)
    (flDyadic 24 (flND 53 op 100).1 (flND 53 op 100).2).2
  rw [dyVal_mul_nat] at h3
  simp only [Prod.mk.eta] at h3
  have h5 := dyTrunc_bounds
    (flDyadic 24 ((flDyadic 24 (flND 53 op 100).1 (flND 53 op 100).2).1 * a)
      (flDyadic 24 (flND 53 op 100).1 (flND 53 op 100).2).2).1
    (flDyadic 24 ((flDyadic 24 (flND 53 op 100).1 (flND 53 op 100).2).1 * a)
      (flDyadic 24 (flND 53 op 100).1 (flND 53 op 100).2).2).2
  simp only [Prod.mk.eta] at h5
  have hb53 := two_zpow_neg_nat_le 53 (by norm_num)
  have hb24 := two_zpow_neg_nat_le 24 (by norm_num)
  push_cast at h1 h2 h3 hb53 hb24
  set f1 := flND 53 op 100 with hf1
  set f2 := flDyadic 24 f1.1 f1.2 with hf2
  set pr := flDyadic 24 (f2.1 * a) f2.2 with hpr
  have hTdef : scaledAlphaCore a op
      = (if 0 ≤ pr.2 then pr.1 * 2 ^ pr.2.toNat else pr.1 / 2 ^ (-pr.2).toNat) := by
    rw [hpr, hf2, hf1]
    rfl
  rw [← hTdef] at h5
  have hq0a : (1:ℚ)/100 ≤ (op:ℚ)/100 := by
    have : (1:ℚ) ≤ op := by exact_mod_cast hop1
    linarith
  have hq0b : (op:ℚ)/100 ≤ 99/100 := by
    have : (op:ℚ) ≤ 99 := by exact_mod_cast (show op ≤ 99 by omega)
    linarith
  have hA0 : (0:ℚ) ≤ (a:ℚ) := by positivity
  have hA : (a:ℚ) ≤ 255 := by exact_mod_cast ha
  have hclose := chain_close ((op:ℚ)/100) (dyVal f1) (dyVal f2) (dyVal pr) (a:ℚ)
    _ _ hq0a hq0b hA0 hA hb53 hb24 h1 h2 h3
  have hu : (op:ℚ)/100 * (a:ℚ) = ((a * op : ℕ):ℚ)/100 := by
    push_cast
    ring
  exact floor_bracket_of_close (scaledAlphaCore a op) (a * op) (dyVal pr)
    ((op:ℚ)/100 * (a:ℚ)) h5.1 h5.2 hu hclose

/-- C8 counterexample: at opacity 53 on a source pixel whose stored alpha
is 100, the program writes alpha 52 — the float32 factor `f32(0.53)` lies
just below 53/100, so Blend.c's truncated product drops below the exact
multiply `100 * 53 / 100 = 53`.  The layer's per-pixel alpha is therefore
not the source alpha multiplied by `opacity/100`. -/
theorem image_watermark_alpha_not_exact_multiply :
    create_image_watermark fsSampleB sampleOracle cfgImageWm53
      = some (applyOpacityAlpha rgbaA100 53) ∧
    ((applyOpacityAlpha rgbaA100 53).px 0 0).a = 52 ∧
    (rgbaA100.px 0 0).a * 53 / 100 = 53 ∧
    (rgbaA100.px 0 0).a * 53 % 100 = 0 :=
  ⟨rfl, by decide, by decide, by decide⟩

/-- C8 as amended: for an image watermark whose source file exists and
decodes (already `RGBA`), at unit scale and no rotation, opacity below 100
replaces each pixel's alpha by the float32 evaluation of the multiply,
`trunc(f32(f32(opacity/100) * alpha))` — a multiply of the source's own
alpha channel, not a replacement by a constant: the colour bands are kept,
the result never exceeds the source alpha, lies within one below the exact
`⌊alpha·opacity/100⌋`, and equals that floor whenever `alpha·opacity` is
not an exact multiple of 100 (only at exact multiples can the float32
factor pull the truncation one below).  At opacity 100 the image is
returned with its alpha channel unchanged. -/
theorem image_watermark_alpha_multiply (fs : FS) (oracle : PILOracle)
    (config : WatermarkConfig) (src : PImage)
    (hpath : ¬(config.watermark_image_path = ""))
    (hexists : fs.pathExists config.watermark_image_path = true)
    (hopen : fs.imageAt config.watermark_image_path = some src)
    (hmode : src.mode = .RGBA)
    (hscale : config.scale_factor = 1)
    (hrot : config.rotation = 0)
    (hwf : src.wf) :
    (0 ≤ config.opacity → config.opacity < 100 →
      create_image_watermark fs oracle config
        = some (applyOpacityAlpha src config.opacity) ∧
      (∀ x y,
        ((applyOpacityAlpha src config.opacity).px x y).a
          = scaledAlpha (src.px x y).a config.opacity ∧
        ((applyOpacityAlpha src config.opacity).px x y).a
          ≤ (src.px x y).a * config.opacity.toNat / 100 ∧
        (src.px x y).a * config.opacity.toNat / 100
          ≤ ((applyOpacityAlpha src config.opacity).px x y).a + 1 ∧
        ((src.px x y).a * config.opacity.toNat % 100 ≠ 0 →
          ((applyOpacityAlpha src config.opacity).px x y).a
            = (src.px x y).a * config.opacity.toNat / 100) ∧
        ((applyOpacityAlpha src config.opacity).px x y).a ≤ (src.px x y).a ∧
        ((applyOpacityAlpha src config.opacity).px x y).r = (src.px x y).r ∧
        ((applyOpacityAlpha src config.opacity).px x y).g = (src.px x y).g ∧
        ((applyOpacityAlpha src config.opacity).px x y).b = (src.px x y).b)) ∧
    (config.opacity = 100 →
      create_image_watermark fs oracle config = some src) := by
  have hopenred : create_image_watermark fs oracle config
      = some (imageWatermarkPipeline oracle config src) := by
    unfold create_image_watermark
    rw [if_neg hpath, if_neg (not_not_intro hexists), hopen]
    rfl
  constructor
  · intro h0 h100
    have hpipe : imageWatermarkPipeline oracle config src
        = applyOpacityAlpha src config.opacity := by
      have hm1 : (src.mode = PMode.RGBA) = True := by simp [hmode]
      have hs1 : (config.scale_factor ≠ 1) = False := by simp [hscale]
      have ho1 : (config.opacity < 100) = True := by simp [h100]
      have hr1 : (config.rotation ≠ 0) = False := by simp [hrot]
      unfold imageWatermarkPipeline
      simp only [hm1, hs1, ho1, hr1, if_true, if_false]
    refine ⟨by rw [hopenred, hpipe], fun x y => ?_⟩
    have haval : ((applyOpacityAlpha src config.opacity).px x y).a
        = scaledAlphaCore (src.px x y).a config.opacity.toNat := by
      show scaledAlpha (src.px x y).a config.opacity = _
      unfold scaledAlpha
      rw [if_pos h0]
    have hoplt : config.opacity.toNat < 100 := by omega
    have hale : (src.px x y).a ≤ 255 := (hwf x y).2.2.2
    have hb := scaledAlphaCore_bracket (src.px x y).a config.opacity.toNat
      hoplt hale
    have hfloor_le : (src.px x y).a * config.opacity.toNat / 100
        ≤ (src.px x y).a := by
      calc (src.px x y).a * config.opacity.toNat / 100
          ≤ (src.px x y).a * 100 / 100 :=
            Nat.div_le_div_right (Nat.mul_le_mul_left _ (by omega))
        _ = (src.px x y).a := Nat.mul_div_cancel (src.px x y).a (by norm_num)
    refine ⟨rfl, ?_, ?_, fun hmod => ?_, ?_, rfl, rfl, rfl⟩
    · rw [haval]
      exact hb.1
    · rw [haval]
      exact hb.2.1
    · rw [haval]
      exact hb.2.2 hmod
    · rw [haval]
      exact le_trans hb.1 hfloor_le
  · intro h100
    have hpipe : imageWatermarkPipeline oracle config src = src := by
      have hm1 : (src.mode = PMode.RGBA) = True := by simp [hmode]
      have hs1 : (config.scale_factor ≠ 1) = False := by simp [hscale]
      have ho1 : (config.opacity < 100) = False := by simp [h100]
      have hr1 : (config.rotation ≠ 0) = False := by simp [hrot]
      unfold imageWatermarkPipeline
      simp only [hm1, hs1, ho1, hr1, if_true, if_false]
    rw [hopenred, hpipe]

/-- Witness for C8's amended theorem on the concrete half-transparent
watermark at opacity 50 (a float-exact point): the stored alpha 128
becomes 64. -/
theorem image_watermark_alpha_multiply_witness :
    create_image_watermark fsSample sampleOracle cfgImageWm50
      = some (applyOpacityAlpha rgbaSample 50) ∧
    ((applyOpacityAlpha rgbaSample 50).px 0 0).a = 64 := by
  have h := image_watermark_alpha_multiply fsSample sampleOracle cfgImageWm50
    rgbaSample (by decide) rfl rfl rfl rfl rfl rgbaSample_wf
  exact ⟨(h.1 (by decide) (by decide)).1, by decide⟩

theorem chineseCandidates_italic_agnostic (fam : String) (b i j : Bool) :
    chineseCandidates fam b i = chineseCandidates fam b j := by
  cases b <;> cases i <;> cases j <;> rfl

theorem get_chinese_font_italic_agnostic (fs : FS) (fam : String) (size : Int)
    (b i j : Bool) :
    get_chinese_font fs fam size b i = get_chinese_font fs fam size b j := by
  unfold get_chinese_font
  rw [chineseCandidates_italic_agnostic fam b i j]

theorem textLayerPadding_ge_ten (config : WatermarkConfig) :
    10 ≤ textLayerPadding config := by
  unfold textLayerPadding
  have h2 : (0:Int) ≤ max config.stroke_width
      (max |config.shadow_offset.1| |config.shadow_offset.2|) :=
    le_trans (abs_nonneg _) (le_trans (le_max_left _ _) (le_max_right _ _))
  have he : (0:Int) ≤
      (if 50 < config.font_size then min (Int.fdiv config.font_size 5) 20
       else 0) := by
    split
    next h => exact le_min (Int.fdiv_nonneg (by omega) (by norm_num)) (by norm_num)
    next => exact le_refl 0
  linarith

theorem textLayerRotated_italic_agnostic (fs : FS) (oracle : PILOracle)
    (text : String) (cfg : WatermarkConfig)
    (hch : has_chinese_characters text = true) :
    textLayerRotated fs oracle text { cfg with font_italic := true }
      = textLayerRotated fs oracle text { cfg with font_italic := false } := by
  have hfont : textLayerFont fs text { cfg with font_italic := true }
      = textLayerFont fs text { cfg with font_italic := false } := by
    unfold textLayerFont
    simp only [hch, if_true]
    exact get_chinese_font_italic_agnostic fs cfg.font_family cfg.font_size
      cfg.font_bold true false
  unfold textLayerRotated textLayerBase textbboxSpanW textbboxSpanH
  rw [hfont]
  rfl

theorem textLayerRotated_dims (fs : FS) (oracle : PILOracle) (text : String)
    (config : WatermarkConfig)
    (hbw : 0 ≤ textbboxSpanW fs oracle text config)
    (hbh : 0 ≤ textbboxSpanH fs oracle text config)
    (hrot : ∀ w h a : Int, 0 < w → 0 < h →
      min w h ≤ (oracle.rotateDims w h a).1 ∧
      min w h ≤ (oracle.rotateDims w h a).2) :
    20 ≤ (textLayerRotated fs oracle text config).width ∧
    20 ≤ (textLayerRotated fs oracle text config).height := by
  have hp := textLayerPadding_ge_ten config
  have hw : 20 ≤ (textLayerBase fs oracle text config).width := by
    show (20:Int) ≤ textbboxSpanW fs oracle text config + textLayerPadding config * 2
    linarith
  have hh : 20 ≤ (textLayerBase fs oracle text config).height := by
    show (20:Int) ≤ textbboxSpanH fs oracle text config + textLayerPadding config * 2
    linarith
  unfold textLayerRotated
  split
  next =>
    have hr := hrot (textLayerBase fs oracle text config).width
      (textLayerBase fs oracle text config).height config.rotation
      (by linarith) (by linarith)
    have hmin : (20:Int) ≤ min (textLayerBase fs oracle text config).width
        (textLayerBase fs oracle text config).height := le_min hw hh
    exact ⟨le_trans hmin hr.1, le_trans hmin hr.2⟩
  next => exact ⟨hw, hh⟩

/-- C7: for nonempty text consisting only of CJK codepoints, rendering with
`font_italic = True` never throws (font resolution and the shear are total,
the CJK resolver ignores the italic flag) and produces a layer strictly
wider than the `font_italic = False` rendering: the constant-factor affine
shear expands the canvas to `int(width + 0.2*height)` and the layer's
height is at least 20 (padding is at least 10 per side and
`rotate(expand=True)` cannot shrink below the smaller dimension), so the
width grows by at least 4.  Hypotheses on the abstracted PIL primitives:
the measured bounding box has nonnegative spans, and rotation's expanded
box is at least the smaller input dimension on each axis. -/
theorem cjk_italic_simulated_shear_widens (fs : FS) (oracle : PILOracle)
    (text : String) (cfg : WatermarkConfig)
    (hne : text.data ≠ [])
    (hcjk : ∀ c ∈ text.data, '一' ≤ c ∧ c ≤ '鿿')
    (hbw : 0 ≤ textbboxSpanW fs oracle text { cfg with font_italic := false })
    (hbh : 0 ≤ textbboxSpanH fs oracle text { cfg with font_italic := false })
    (hrot : ∀ w h a : Int, 0 < w → 0 < h →
      min w h ≤ (oracle.rotateDims w h a).1 ∧
      min w h ≤ (oracle.rotateDims w h a).2) :
    (create_text_watermark fs oracle text { cfg with font_italic := false }).width
      < (create_text_watermark fs oracle text { cfg with font_italic := true }).width := by
  have hch : has_chinese_characters text = true := by
    cases hd : text.data with
    | nil => exact absurd hd hne
    | cons c cs =>
      have hc := hcjk c (by rw [hd]; exact List.mem_cons_self c cs)
      unfold has_chinese_characters
      rw [hd]
      simp only [List.any_cons, Bool.or_eq_true, decide_eq_true_eq]
      exact Or.inl hc
  have hagn := textLayerRotated_italic_agnostic fs oracle text cfg hch
  have hdims := textLayerRotated_dims fs oracle text
    { cfg with font_italic := false } hbw hbh hrot
  have hwidthF :
      (create_text_watermark fs oracle text { cfg with font_italic := false }).width
        = (textLayerRotated fs oracle text { cfg with font_italic := false }).width := by
    unfold create_text_watermark
    rw [show (has_chinese_characters text &&
        ({ cfg with font_italic := false } : WatermarkConfig).font_italic) = false
      from by simp]
    rfl
  have hwidthT :
      (create_text_watermark fs oracle text { cfg with font_italic := true }).width
        = (textLayerRotated fs oracle text { cfg with font_italic := false }).width
          + Int.fdiv
            (textLayerRotated fs oracle text { cfg with font_italic := false }).height
            5 := by
    unfold create_text_watermark
    rw [show (has_chinese_characters text &&
        ({ cfg with font_italic := true } : WatermarkConfig).font_italic) = true
      from by simp [hch], hagn]
    rfl
  have hfd : (4:Int) ≤ Int.fdiv
      (textLayerRotated fs oracle text { cfg with font_italic := false }).height 5 := by
    rw [Int.fdiv_eq_ediv _ (by norm_num)]
    calc (4:Int) = 20 / 5 := by norm_num
      _ ≤ (textLayerRotated fs oracle text
            { cfg with font_italic := false }).height / 5 :=
        Int.ediv_le_ediv (by norm_num) hdims.2
  rw [hwidthF, hwidthT]
  linarith

/-- Witness for C7: the single CJK character `中` at the default
configuration, on the concrete oracle, renders strictly wider with the
italic flag set. -/
theorem cjk_italic_simulated_shear_widens_witness :
    (create_text_watermark FS.nofiles sampleOracle "中"
        { WatermarkConfig.init with font_italic := false }).width
      < (create_text_watermark FS.nofiles sampleOracle "中"
        { WatermarkConfig.init with font_italic := true }).width := by
  refine cjk_italic_simulated_shear_widens FS.nofiles sampleOracle "中"
    WatermarkConfig.init ?_ ?_ ?_ ?_ ?_
  · decide
  · decide
  · decide
  · decide
  · intro w h a hw hh
    exact ⟨min_le_left w h, min_le_right w h⟩

end PhotoWatermark
